import Mathlib

/-!
Verification of the GenshinTools ingestion pipeline
(src/roster/services/api_client.py and
src/roster/management/commands/import_genshin_blue.py).

The Python functions are shallowly embedded: JSON values become an
inductive type, Python truthiness and fallback chains are modelled
explicitly, and statements the Python runtime would abort with an
exception (ValueError from int(), AttributeError from .lower() on a
non-string) are modelled with Option / Except.
-/

namespace GenshinTools

/-- JSON values as delivered by the remote API.  Python dicts preserve
insertion order, so objects are association lists; numbers are modelled
as integers (the payload fields relevant here are integral). -/
inductive Json where
  | null
  | bool (b : Bool)
  | num (n : Int)
  | str (s : String)
  | arr (elems : List Json)
  | obj (fields : List (String × Json))
deriving Repr

/-- Python truthiness of a JSON value: None, False, 0, "", [] and \x7b\x7d
are falsy, everything else truthy. -/
def Json.truthy : Json → Bool
  | .null => false
  | .bool b => b
  | .num n => n != 0
  | .str s => s ≠ ""
  | .arr xs => !xs.isEmpty
  | .obj fs => !fs.isEmpty

/-- First binding of a key in an object, mirroring dict.get(k) (Python
dicts have unique keys; on our association lists the first binding wins). -/
def Json.get? : Json → String → Option Json
  | .obj fields, k => fields.lookup k
  | _, _ => none

/-- Python bool(= if raw:) fallback chain a or b: keep a when truthy,
else b. -/
def jor (a b : Json) : Json := if a.truthy then a else b

/-- dict.get(k, default): the default only applies when the key is
absent, not when its value is falsy. -/
def Json.getD (j : Json) (k : String) (d : Json) : Json :=
  match j.get? k with
  | some v => v
  | none => d

/-- Lower-casing used by the Python code (str.lower on the ASCII names
appearing in the data), character by character. -/
def pyLower (s : String) : String := ⟨s.data.map Char.toLower⟩

/-- Python str.strip(): whitespace removed from both ends. -/
def pyStrip (s : String) : String :=
  ⟨((s.data.dropWhile Char.isWhitespace).reverse.dropWhile Char.isWhitespace).reverse⟩

/-- Digits of a decimal literal accumulated into a Nat; none when a
non-digit appears or the digit list is empty. -/
def digitsToNat : List Char → Option Nat
  | [] => none
  | cs => go 0 cs
where
  go (acc : Nat) : List Char → Option Nat
    | [] => some acc
    | c :: rest => if c.isDigit then go (acc * 10 + (c.toNat - 48)) rest else none

/-- Python int(s) on a string: surrounding whitespace stripped, an
optional sign, then decimal digits; anything else raises ValueError
(modelled as none). -/
def parseIntPy (s : String) : Option Int :=
  match (pyStrip s).data with
  | '+' :: ds => (digitsToNat ds).map Int.ofNat
  | '-' :: ds => (digitsToNat ds).map (fun n => -(n : Int))
  | ds => (digitsToNat ds).map Int.ofNat

/-- Python int(x) on a JSON value: ints pass through, bools become 0/1,
strings are parsed, everything else raises (modelled as none). -/
def Json.toIntPy : Json → Option Int
  | .num n => some n
  | .bool b => some (if b then 1 else 0)
  | .str s => parseIntPy s
  | _ => none

/-- Python str.title(): the first letter of every alphabetic run is
upper-cased, the rest lower-cased. -/
def pyTitle (s : String) : String :=
  ⟨go false s.data⟩
where
  go (prevAlpha : Bool) : List Char → List Char
    | [] => []
    | c :: cs =>
      if c.isAlpha then
        (if prevAlpha then c.toLower else c.toUpper) :: go true cs
      else
        c :: go false cs

/-- Python str.replace(old, new) for single characters, as used by
slug.replace("-", " "). -/
def replaceChar (s : String) (old new : Char) : String :=
  ⟨s.data.map (fun c => if c = old then new else c)⟩

/-!
Rendering used to model Python str(x) on JSON values.  str of a
string is the string itself; None/True/False render as in Python;
composite values get a structural rendering through repr (no claim
depends on the exact text of that case).
-/

mutual

/-- Python repr(x) of a JSON value (used inside containers by str). -/
def pyStrRepr : Json → String
  | .null => "None"
  | .bool b => if b then "True" else "False"
  | .num n => toString n
  | .str s => "'" ++ s ++ "'"
  | .arr xs => "[" ++ String.intercalate ", " (pyStrReprList xs) ++ "]"
  | .obj fs => "\x7b" ++ String.intercalate ", " (pyStrReprFields fs) ++ "\x7d"

def pyStrReprList : List Json → List String
  | [] => []
  | x :: xs => pyStrRepr x :: pyStrReprList xs

def pyStrReprFields : List (String × Json) → List String
  | [] => []
  | (k, v) :: fs => ("'" ++ k ++ "': " ++ pyStrRepr v) :: pyStrReprFields fs

end

def pyStr : Json → String
  | .null => "None"
  | .bool b => if b then "True" else "False"
  | .num n => toString n
  | .str s => s
  | .arr xs => "[" ++ String.intercalate ", " (pyStrReprList xs) ++ "]"
  | .obj fs => "\x7b" ++ String.intercalate ", " (pyStrReprFields fs) ++ "\x7d"

/-!
Rarity parsing, one definition per call site.

fetch_characters (api_client.py line 149):
  rarity=int(detail.get("rarity", 5))
build_weapon (api_client.py line 362):
  rarity=int(item.get("rarity", 4) or 4)
fetch_materials (api_client.py lines 335-338):
  try: rarity = int(item.get("rarity", 1) or 1)
  except (TypeError, ValueError): rarity = 1
-/

/-- Character rarity: int(detail.get("rarity", 5)).  No exception
handler: none models a ValueError/TypeError escaping fetch_characters. -/
def charRarity (detail : Json) : Option Int :=
  match detail.get? "rarity" with
  | none => some 5
  | some v => v.toIntPy

/-- Weapon rarity: int(item.get("rarity", 4) or 4).  A falsy present
value falls back to 4; no exception handler. -/
def weaponRarity (item : Json) : Option Int :=
  match item.get? "rarity" with
  | none => some 4
  | some v => if v.truthy then v.toIntPy else some 4

/-- Material rarity: int(item.get("rarity", 1) or 1) wrapped in
try/except (TypeError, ValueError) with fallback 1 — total by
construction. -/
def matRarity (item : Json) : Int :=
  match item.get? "rarity" with
  | none => 1
  | some v => if v.truthy then (v.toIntPy).getD 1 else 1

/-- dict.get(k) with Python None for a missing key. -/
def jget (j : Json) (k : String) : Json := (j.get? k).getD Json.null

/-- The key.lower() / name.lower() calls apply to values that must be
strings; anything else raises AttributeError (modelled as error). -/
def asLowerStr : Json → Except Unit String
  | .str s => .ok (pyLower s)
  | _ => .error ()

/-- Prefix test on character lists (helper for the Python in operator). -/
def isPrefixOfL : List Char → List Char → Bool
  | [], _ => true
  | _ :: _, [] => false
  | a :: as, b :: bs => a = b && isPrefixOfL as bs

/-- Substring containment on character lists. -/
def containsL (key hay : List Char) : Bool :=
  isPrefixOfL key hay ||
    match hay with
    | [] => false
    | _ :: t => containsL key t

/-- Python key in path for strings: substring containment (the empty
string is contained in everything). -/
def strContains (hay key : String) : Bool := containsL key.data hay.data

/-- path.split("/")[0]: everything before the first slash (the whole
string when there is none). -/
def firstSeg (p : String) : String := ⟨p.data.takeWhile (· ≠ '/')⟩

/-- Python str.capitalize(): first character upper-cased, the rest
lower-cased. -/
def pyCapitalize (s : String) : String :=
  match s.data with
  | [] => ""
  | c :: cs => ⟨c.toUpper :: cs.map Char.toLower⟩

/-!
extract_sources (api_client.py lines 180-261): boss-keyword lookup on
the traversal path, then region lookup on the path's first segment,
then the generic candidate-field chain with order-preserving
deduplication.
-/

/-- TALENT_BOSS_SOURCE_BY_KEYWORD, in dict insertion order (the loop
over .items() sees the keys in this order). -/
def bossTable : List (String × String) :=
  [("boreas", "Andrius, Dominator of Wolves"),
   ("dvalin", "Stormterror"),
   ("monoceros", "Childe (Tartaglia)"),
   ("foul-legacy", "Childe (Tartaglia)"),
   ("azhdaha", "Azhdaha"),
   ("raiden", "Magatsu Mitake Narukami no Mikoto"),
   ("puppet", "Everlasting Lord of Arcane Wisdom"),
   ("mushin", "Everlasting Lord of Arcane Wisdom"),
   ("calamitous-god", "Shouki no Kami"),
   ("aeons", "Shouki no Kami"),
   ("lightless", "All-Devouring Narwhal"),
   ("fading-candle", "The Knave"),
   ("denial-and-judgment", "The Knave")]

/-- First boss whose keyword occurs in the path (the for loop returns on
the first hit). -/
def bossLookup (path : String) : Option String :=
  bossTable.findSome? (fun p => if strContains path p.1 then some p.2 else none)

/-- The fixed region vocabulary of the local-specialties fallback. -/
def regionSet : List String :=
  ["mondstadt", "liyue", "inazuma", "sumeru", "fontaine", "natlan"]

/-- norm(v) inside extract_sources: a non-blank string becomes a
singleton, a list keeps its non-blank string elements stripped,
everything else contributes nothing. -/
def normCand : Json → List String
  | .str s => if pyStrip s ≠ "" then [pyStrip s] else []
  | .arr xs =>
      xs.filterMap fun x =>
        match x with
        | .str s => if pyStrip s ≠ "" then some (pyStrip s) else none
        | _ => none
  | _ => []

/-- The ordered candidate fields consulted by the generic branch. -/
def candidateParts (item : Json) : List String :=
  (([jget item "source", jget item "sources", jget item "_inherited_sources",
     jget item "obtain", jget item "obtainedFrom", jget item "domain",
     jget item "dropDomain", jget item "location", jget item "region"]).map normCand).flatten

/-- Order-preserving deduplication with a seen set, as in the Python
loop. -/
def dedupe : List String → List String :=
  go []
where
  go (seen : List String) : List String → List String
    | [] => []
    | p :: rest => if seen.contains p then go seen rest else p :: go (p :: seen) rest

/-- Generic branch result: deduplicated candidates joined with ", ". -/
def joinCandidates (item : Json) : String :=
  String.intercalate ", " (dedupe (candidateParts item))

/-- extract_sources.  A truthy non-string _path raises TypeError at the
keyword containment test (modelled as error); a falsy path skips both
path-based branches. -/
def extractSources (item : Json) : Except Unit String :=
  let pathVal := item.getD "_path" (Json.str "")
  if pathVal.truthy then
    match pathVal with
    | .str path =>
        match bossLookup path with
        | some boss => .ok boss
        | none =>
            let region := firstSeg path
            if regionSet.contains region then .ok (pyCapitalize region)
            else .ok (joinCandidates item)
    | _ => .error ()
  else .ok (joinCandidates item)

/-!
extract_items_from_category_payload (api_client.py lines 264-313): the
recursive walk over the category tree.
-/

/-- looks_like_item: a non-blank string name plus at least one marker
key. -/
def looksLikeItem (node : Json) : Bool :=
  match node.get? "name" with
  | some (.str s) =>
      if pyStrip s = "" then false
      else
        (node.get? "id").isSome || (node.get? "rarity").isSome ||
          (node.get? "experience").isSome || (node.get? "characters").isSome
  | _ => false

/-- get_sources_from_node: source strings declared on a node. -/
def getSourcesFromNode (node : Json) : List String :=
  match node with
  | .obj _ =>
      match jor (jget node "sources") (jget node "source") with
      | .str s => if pyStrip s ≠ "" then [pyStrip s] else []
      | .arr xs =>
          xs.filterMap fun x =>
            match x with
            | .str s => if pyStrip s ≠ "" then some (pyStrip s) else none
            | _ => none
      | _ => []
  | _ => []

/-- Python dict assignment d[k] = v on an association list: replace the
first binding in place, else append at the end. -/
def setKey : List (String × Json) → String → Json → List (String × Json)
  | [], k, v => [(k, v)]
  | (k0, v0) :: rest, k, v =>
      if k0 = k then (k0, v) :: rest else (k0, v0) :: setKey rest k v

/-- clean = dict(node); clean["_path"] = "/".join(path); and, when
local_sources is non-empty, clean["_inherited_sources"] = local_sources.
The copy leaves the original node untouched. -/
def mkClean (fields : List (String × Json)) (path : List String)
    (localSources : List String) : Json :=
  let c1 := setKey fields "_path" (Json.str (String.intercalate "/" path))
  Json.obj (if localSources.isEmpty then c1
            else setKey c1 "_inherited_sources" (Json.arr (localSources.map Json.str)))

/-- Membership of a node in a JSON tree (reflexive-transitive descent
through object fields and array elements). -/
inductive Subnode : Json → Json → Prop where
  | refl (j : Json) : Subnode j j
  | objField {j v : Json} {k : String} {fields : List (String × Json)} :
      (k, v) ∈ fields → Subnode j v → Subnode j (Json.obj fields)
  | arrElem {j v : Json} {xs : List Json} :
      v ∈ xs → Subnode j v → Subnode j (Json.arr xs)

mutual

/-- walk: emit the node itself when it looks like an item (as a copy
with the synthetic keys), then recurse into children.  The two-key
wrapper refinement skips only the "id" key of simple wrappers during
traversal; the dead wrapper check at lines 290-292 of the source is a
no-op (its body is pass) and is omitted. -/
def walk (node : Json) (path : List String) (inherited : List String) : List Json :=
  match node with
  | Json.obj fields =>
      let localSources := inherited ++ getSourcesFromNode (Json.obj fields)
      (if looksLikeItem (Json.obj fields) then [mkClean fields path localSources] else []) ++
        walkFields fields.length path localSources fields
  | Json.arr xs => walkList path inherited 0 xs
  | _ => []

/-- The for k, v loop over a dict node; n is len(node). -/
def walkFields (n : Nat) (path : List String) (ls : List String) :
    List (String × Json) → List Json
  | [] => []
  | (k, v) :: rest =>
      (if k = "id" ∧ (match v with | Json.str _ => true | _ => false) = true ∧ n ≤ 2 then []
       else walk v (path ++ [k]) ls) ++ walkFields n path ls rest

/-- The enumerate loop over a list node. -/
def walkList (path : List String) (inherited : List String) :
    Nat → List Json → List Json
  | _, [] => []
  | idx, v :: rest =>
      walk v (path ++ [toString idx]) inherited ++ walkList path inherited (idx + 1) rest

end

/-- extract_items_from_category_payload: walk from the root with empty
path and no inherited sources. -/
def extractItems (payload : Json) : List Json := walk payload [] []

/-!
normalize_recommendations (api_client.py lines 91-108).
-/

/-- One recommendation: name plus 1-based ranking. -/
structure ApiRecommendation where
  name : String
  ranking : Nat
deriving Repr, DecidableEq

/-- Name resolution for one list entry: a dict resolves through
name/title/weapon, any other entry is its own name. -/
def listRecName (item : Json) : Json :=
  match item with
  | Json.obj _ => jor (jget item "name") (jor (jget item "title") (jget item "weapon"))
  | _ => item

/-- The list branch: falsy names are skipped while idx keeps counting. -/
def recsFromList : Nat → List Json → List ApiRecommendation
  | _, [] => []
  | idx, item :: rest =>
      if (listRecName item).truthy then
        ⟨pyStr (listRecName item), idx + 1⟩ :: recsFromList (idx + 1) rest
      else recsFromList (idx + 1) rest

/-- Name resolution for one dict key: the value when it is a string,
else the key itself. -/
def dictRecName (raw : Json) (key : String) : String :=
  match raw.get? key with
  | some (Json.str s) => s
  | _ => key

/-- The dict branch: enumerate the keys; empty names are skipped while
idx keeps counting. -/
def recsFromDict (raw : Json) : Nat → List (String × Json) → List ApiRecommendation
  | _, [] => []
  | idx, (key, _) :: rest =>
      if dictRecName raw key ≠ "" then ⟨dictRecName raw key, idx + 1⟩ :: recsFromDict raw (idx + 1) rest
      else recsFromDict raw (idx + 1) rest

/-- normalize_recommendations: dict, list, single string, or nothing. -/
def normRecs : Json → List ApiRecommendation
  | Json.obj fields => recsFromDict (Json.obj fields) 0 fields
  | Json.arr items => recsFromList 0 items
  | Json.str s => [⟨s, 1⟩]
  | _ => []

/-!
normalize_talents (api_client.py lines 110-139).
-/

/-- One talent record. -/
structure ApiTalent where
  name : String
  description : String
  priority : Nat
deriving Repr, DecidableEq

/-- priority_lookup construction: enumerate raw_priority, string entries
are inserted under their lower-cased text with value idx + 1; a later
duplicate overwrites an earlier one (dict assignment). -/
def prioInsertAll (i : Nat) (m : String → Option Nat) : List Json → (String → Option Nat)
  | [] => m
  | Json.str t :: rest =>
      prioInsertAll (i + 1) (fun s => if s = pyLower t then some (i + 1) else m s) rest
  | _ :: rest => prioInsertAll (i + 1) m rest

/-- The raw priority list: talent_priority or priority or []. -/
def rawPriorityOf (detail : Json) : Json :=
  jor (jget detail "talent_priority") (jor (jget detail "priority") (Json.arr []))

/-- The priority lookup of a detail payload; a non-list raw priority
leaves the lookup empty. -/
def lookupOf (detail : Json) : String → Option Nat :=
  match rawPriorityOf detail with
  | Json.arr entries => prioInsertAll 0 (fun _ => none) entries
  | _ => fun _ => none

/-- The loop body of normalize_talents for the entry at index idx:
ok none is a skipped entry, ok (some t) an emitted talent, error a
raised AttributeError (name.lower() on a truthy non-string name). -/
def talentOfEntry (lookup : String → Option Nat) (idx : Nat) (talent : Json) :
    Except Unit (Option ApiTalent) :=
  match talent with
  | Json.obj _ =>
      let name := jor (jget talent "name") (jget talent "title")
      let description := jor (jget talent "description") (jor (jget talent "info") (Json.str ""))
      if name.truthy then
        match name with
        | Json.str s => .ok (some ⟨s, pyStr description, (lookup (pyLower s)).getD (idx + 1)⟩)
        | _ => .error ()
      else .ok none
  | _ =>
      let s := pyStr talent
      if s ≠ "" then .ok (some ⟨s, "", (lookup (pyLower s)).getD (idx + 1)⟩) else .ok none

/-- The enumerate loop of normalize_talents. -/
def talentsFromList (lookup : String → Option Nat) : Nat → List Json → Except Unit (List ApiTalent)
  | _, [] => .ok []
  | idx, t :: rest => do
      let o ← talentOfEntry lookup idx t
      let others ← talentsFromList lookup (idx + 1) rest
      match o with
      | some tal => .ok (tal :: others)
      | none => .ok others

/-- raw_talents resolution: talents or skills or [].  A dict is turned
into .values(), which is neither a list nor a tuple, so the isinstance
guard at line 123 then empties the iterable; only a JSON array survives. -/
def rawTalentIterable (detail : Json) : List Json :=
  match jor (jget detail "talents") (jor (jget detail "skills") (Json.arr [])) with
  | Json.arr xs => xs
  | _ => []

/-- normalize_talents. -/
def normTalents (detail : Json) : Except Unit (List ApiTalent) :=
  talentsFromList (lookupOf detail) 0 (rawTalentIterable detail)

/-- Option to Except: none models an uncaught Python exception. -/
def exceptOf : Option α → Except Unit α
  | some a => .ok a
  | none => .error ()

/-!
fetch_characters (api_client.py lines 141-167): the record built for one
slug and its detail payload.
-/

/-- The character payload record.  name keeps the raw fallback-chain
value (the code does not coerce it to a string) and so does description;
element and weapon_type pass through .lower() and must be strings. -/
structure ApiCharacterPayloadE where
  name : Json
  element : String
  weapon_type : String
  rarity : Int
  description : Json
  talents : List ApiTalent
  weapon_recommendations : List ApiRecommendation
  artifact_recommendations : List ApiRecommendation
deriving Repr

/-- The loop body of fetch_characters for one slug.  A non-dict detail
raises at the first .get (modelled as error); element/weapon lower-casing
and the rarity int() can also raise. -/
def buildCharacter (slug : String) (detail : Json) : Except Unit ApiCharacterPayloadE :=
  match detail with
  | Json.obj _ => do
      let baseName := jor (jget detail "name") (Json.str (pyTitle (replaceChar slug '-' ' ')))
      let element ← asLowerStr (jor (jget detail "vision") (jor (jget detail "element") (Json.str "")))
      let weaponType ← asLowerStr (jor (jget detail "weapon") (jor (jget detail "weapon_type") (Json.str "")))
      let rarity ← exceptOf (charRarity detail)
      let description := detail.getD "description" (Json.str "")
      let talents ← normTalents detail
      let weaponRecs := normRecs (jor (jget detail "recommended_weapons")
        (jor (jget detail "best_weapons")
          (jor (jget detail "weapons") (jor (jget detail "weapon_recommendations") (Json.arr [])))))
      let artifactRecs := normRecs (jor (jget detail "recommended_artifacts")
        (jor (jget detail "artifacts")
          (jor (jget detail "artifact_recommendations") (jor (jget detail "recommended_sets") (Json.arr [])))))
      .ok ⟨baseName, element, weaponType, rarity, description, talents, weaponRecs, artifactRecs⟩
  | _ => .error ()

/-!
fetch_weapons (api_client.py lines 352-381).
-/

/-- The weapon record.  name keeps the raw fallback-chain value (not
str()-coerced by the code); the other fields are coerced. -/
structure ApiWeaponE where
  name : Json
  weapon_type : String
  rarity : Int
  source : String
  description : String
deriving Repr

/-- build_weapon (api_client.py lines 358-365).  Callers always pass a
dict for item. -/
def buildWeapon (slug : String) (item : Json) : Except Unit ApiWeaponE := do
  let name := jor (jget item "name") (Json.str (pyTitle (replaceChar slug '-' ' ')))
  let weaponType ← asLowerStr (jor (jget item "type")
    (jor (jget item "weapon_type") (jor (jget item "weapon") (Json.str ""))))
  let rarity ← exceptOf (weaponRarity item)
  let source := pyStr (jor (jget item "source") (jor (jget item "obtain") (Json.str "")))
  let description := pyStr (item.getD "description" (Json.str ""))
  .ok ⟨name, weaponType, rarity, source, description⟩

/-- The list branch of fetch_weapons: string entries fetch a detail
payload (detailOf models the per-slug GET; a non-dict detail is replaced
by an empty dict), dict entries derive a slug from name/id/slug, other
entries are skipped. -/
def fetchWeaponsList (detailOf : String → Json) : List Json → Except Unit (List ApiWeaponE)
  | [] => .ok []
  | Json.str s :: rest => do
      let d := detailOf s
      let w ← buildWeapon s (match d with | Json.obj _ => d | _ => Json.obj [])
      let ws ← fetchWeaponsList detailOf rest
      .ok (w :: ws)
  | Json.obj fs :: rest => do
      let entry := Json.obj fs
      let slug := pyStr (jor (jget entry "name")
        (jor (jget entry "id") (jor (jget entry "slug") (Json.str ""))))
      let w ← buildWeapon slug entry
      let ws ← fetchWeaponsList detailOf rest
      .ok (w :: ws)
  | _ :: rest => fetchWeaponsList detailOf rest

/-- The dict branch of fetch_weapons: slug-keyed objects, non-dict
values skipped. -/
def fetchWeaponsDict : List (String × Json) → Except Unit (List ApiWeaponE)
  | [] => .ok []
  | (slug, Json.obj fs) :: rest => do
      let w ← buildWeapon slug (Json.obj fs)
      let ws ← fetchWeaponsDict rest
      .ok (w :: ws)
  | _ :: rest => fetchWeaponsDict rest

/-- fetch_weapons on an already-fetched payload. -/
def fetchWeapons (payload : Json) (detailOf : String → Json) : Except Unit (List ApiWeaponE) :=
  match payload with
  | Json.arr entries => fetchWeaponsList detailOf entries
  | Json.obj fields => fetchWeaponsDict fields
  | _ => .ok []

/-!
fetch_artifacts (api_client.py lines 383-421).
-/

/-- The artifact-set record.  name keeps the raw fallback-chain value
(the code does not coerce it); the bonus texts are str()-coerced. -/
structure ApiArtifactSetE where
  name : Json
  two_piece_bonus : String
  four_piece_bonus : String
deriving Repr

/-- build_set (api_client.py lines 389-406): name falls back to the
title-cased slug; each bonus resolves through its synonym chain.  No
conversion can raise, so the builder is total. -/
def buildSet (slug : String) (item : Json) : ApiArtifactSetE :=
  ⟨jor (jget item "name") (Json.str (pyTitle (replaceChar slug '-' ' '))),
   pyStr (jor (jget item "2pc") (jor (jget item "two_pc")
     (jor (jget item "two_piece_bonus") (jor (jget item "2_piece_bonus") (Json.str ""))))),
   pyStr (jor (jget item "4pc") (jor (jget item "four_pc")
     (jor (jget item "four_piece_bonus") (jor (jget item "4_piece_bonus") (Json.str "")))))⟩

/-- The list branch of fetch_artifacts: string entries fetch a detail
payload (a non-dict detail is replaced by an empty dict), dict entries
derive a slug from name/id/slug, other entries are skipped. -/
def fetchArtifactsList (detailOf : String → Json) : List Json → List ApiArtifactSetE
  | [] => []
  | Json.str s :: rest =>
      buildSet s (match detailOf s with | Json.obj fs => Json.obj fs | _ => Json.obj []) ::
        fetchArtifactsList detailOf rest
  | Json.obj fs :: rest =>
      buildSet (pyStr (jor (jget (Json.obj fs) "name")
          (jor (jget (Json.obj fs) "id") (jor (jget (Json.obj fs) "slug") (Json.str "")))))
        (Json.obj fs) :: fetchArtifactsList detailOf rest
  | _ :: rest => fetchArtifactsList detailOf rest

/-- The dict branch of fetch_artifacts: slug-keyed objects, non-dict
values skipped. -/
def fetchArtifactsDict : List (String × Json) → List ApiArtifactSetE
  | [] => []
  | (slug, Json.obj fs) :: rest => buildSet slug (Json.obj fs) :: fetchArtifactsDict rest
  | _ :: rest => fetchArtifactsDict rest

/-- fetch_artifacts on an already-fetched payload. -/
def fetchArtifacts (payload : Json) (detailOf : String → Json) : List ApiArtifactSetE :=
  match payload with
  | Json.arr entries => fetchArtifactsList detailOf entries
  | Json.obj fields => fetchArtifactsDict fields
  | _ => []

/-!
fetch_materials (api_client.py lines 330-348): the per-item loop that
turns extracted raw items into ApiMaterial records.
-/

/-- The material record (all fields already coerced by the loop). -/
structure ApiMaterialR where
  name : String
  type : String
  rarity : Int
  source : String
deriving Repr, DecidableEq

/-- The for item in items loop of fetch_materials: items without a
non-blank string name are skipped; rarity parsing never raises;
extract_sources may raise. -/
def buildMaterials (category : String) : List Json → Except Unit (List ApiMaterialR)
  | [] => .ok []
  | item :: rest =>
      match item.get? "name" with
      | some (Json.str s) =>
          if pyStrip s = "" then buildMaterials category rest
          else do
            let src ← extractSources item
            let ms ← buildMaterials category rest
            .ok (⟨pyStrip s, category, matRarity item, src⟩ :: ms)
      | _ => buildMaterials category rest

/-!
import_genshin_blue.py, Command.handle (lines 26-157).

The fetched data is modelled at the level the command consumes it: a
list of character payloads (with talents and recommendations), and the
material / weapon / artifact-set catalogues, with string fields.  The
Django ORM is modelled as a per-model map from natural key to row;
update_or_create(key, defaults) creates a row (absent fields taking the
model defaults of roster/models.py) or overwrites exactly the listed
defaults on the existing row.  The store is never read in a way that
influences control flow: Character.objects.get(name=...) only recovers
the row upserted by name earlier in the same run, and the
weapon_map/artifact_map dictionaries are in-memory, keyed by the
lower-cased entity name, holding the entity's exact name.
-/

/-- A talent attached to a character payload. -/
structure TalentRec where
  name : String
  description : String
  priority : Int
deriving Repr, DecidableEq

/-- A weapon or artifact recommendation attached to a character payload. -/
structure RecRec where
  name : String
  ranking : Int
deriving Repr, DecidableEq

/-- A fetched character payload as consumed by the command. -/
structure CharPayload where
  name : String
  element : String
  weapon_type : String
  rarity : Int
  description : String
  talents : List TalentRec
  weapon_recommendations : List RecRec
  artifact_recommendations : List RecRec
deriving Repr, DecidableEq

/-- A fetched material record. -/
structure MaterialRecd where
  name : String
  type : String
  rarity : Int
  source : String
deriving Repr, DecidableEq

/-- A fetched weapon record. -/
structure WeaponRecd where
  name : String
  weapon_type : String
  rarity : Int
  source : String
  description : String
deriving Repr, DecidableEq

/-- A fetched artifact-set record. -/
structure ArtifactRecd where
  name : String
  two_piece_bonus : String
  four_piece_bonus : String
deriving Repr, DecidableEq

/-- Everything one run fetches from the API. -/
structure ImportData where
  characters : List CharPayload
  materials : List MaterialRecd
  weapons : List WeaponRecd
  artifacts : List ArtifactRecd
deriving Repr

/-- Character row (roster.models.Character minus the name key): role is
never written by the import and defaults to blank on create. -/
structure CharacterRow where
  element : String
  rarity : Int
  role : String
  weapon_type : String
  description : String
deriving Repr, DecidableEq

/-- Weapon row (roster.models.Weapon minus the name key). -/
structure WeaponRow where
  weapon_type : String
  rarity : Int
  source : String
  description : String
deriving Repr, DecidableEq

/-- Artifact-set row. -/
structure ArtifactRow where
  two_piece_bonus : String
  four_piece_bonus : String
deriving Repr, DecidableEq

/-- Material row. -/
structure MaterialRow where
  material_type : String
  rarity : Int
  source : String
deriving Repr, DecidableEq

/-- CharacterTalent row (keyed by (character name, talent name)). -/
structure TalentRow where
  description : String
  recommended_priority : Int
deriving Repr, DecidableEq

/-- Recommendation link row (keyed by (character name, entity name));
note is never written by the import and defaults to blank on create. -/
structure RecRow where
  ranking : Int
  note : String
deriving Repr, DecidableEq

/-- The persistent store, one map per model, keyed by natural key. -/
structure Store where
  characters : String → Option CharacterRow
  materials : String → Option MaterialRow
  weapons : String → Option WeaponRow
  artifacts : String → Option ArtifactRow
  talents : String × String → Option TalentRow
  weaponRecs : String × String → Option RecRow
  artifactRecs : String × String → Option RecRow

/-- update_or_create as a keyed merge: the write w is merged over the
old row at key k (create when absent). -/
def mupsert {κ α β : Type} [DecidableEq κ] (merge : Option β → α → β)
    (m : κ → Option β) (k : κ) (w : α) : κ → Option β :=
  fun q => if q = k then some (merge (m k) w) else m q

/-- A list of keyed writes applied in order. -/
def mapplyAll {κ α β : Type} [DecidableEq κ] (merge : Option β → α → β)
    (L : List (κ × α)) (m : κ → Option β) : κ → Option β :=
  L.foldl (fun m p => mupsert merge m p.1 p.2) m

/-- The role of an existing character row, or the model default blank
on create. -/
def croleOf : Option CharacterRow → String
  | some r => r.role
  | none => ""

/-- Character.objects.update_or_create(name=..., defaults=element,
weapon_type, rarity, description): role is untouched (blank on create). -/
def mergeChar (old : Option CharacterRow) (c : CharPayload) : CharacterRow :=
  { element := c.element, weapon_type := c.weapon_type, rarity := c.rarity,
    description := c.description, role := croleOf old }

/-- Material.objects.update_or_create: all non-key fields written. -/
def mergeMaterial (_ : Option MaterialRow) (m : MaterialRecd) : MaterialRow :=
  { material_type := m.type, rarity := m.rarity, source := m.source }

/-- A weapon write: the catalogue upsert writes all four fields, the
reconciliation placeholder writes weapon_type, rarity 4 and empty source
but leaves description untouched (blank on create). -/
inductive WeaponWrite where
  | full (w : WeaponRecd)
  | placeholder (weapon_type : String)
deriving Repr, DecidableEq

/-- The description of an existing weapon row, or the model default
blank on create. -/
def wdescOf : Option WeaponRow → String
  | some r => r.description
  | none => ""

/-- Weapon.objects.update_or_create for both call sites. -/
def mergeWeapon (old : Option WeaponRow) : WeaponWrite → WeaponRow
  | .full w => { weapon_type := w.weapon_type, rarity := w.rarity,
                 source := w.source, description := w.description }
  | .placeholder wt =>
      { weapon_type := wt, rarity := 4, source := "", description := wdescOf old }

/-- ArtifactSet.objects.update_or_create: both call sites write both
bonus fields (the placeholder writes empty texts). -/
def mergeArtifact (_ : Option ArtifactRow) (w : String × String) : ArtifactRow :=
  { two_piece_bonus := w.1, four_piece_bonus := w.2 }

/-- CharacterTalent.objects.update_or_create: description and priority
written. -/
def mergeTalent (_ : Option TalentRow) (t : TalentRec) : TalentRow :=
  { description := t.description, recommended_priority := t.priority }

/-- The note of an existing link row, or the model default blank on
create. -/
def rnoteOf : Option RecRow → String
  | some r => r.note
  | none => ""

/-- Recommendation-link update_or_create: ranking written, note
untouched (blank on create). -/
def mergeRec (old : Option RecRow) (ranking : Int) : RecRow :=
  { ranking := ranking, note := rnoteOf old }

/-- The character loop (lines 33-43). -/
def importCharacters (cs : List CharPayload) (s : Store) : Store :=
  cs.foldl (fun s c => { s with characters := mupsert mergeChar s.characters c.name c }) s

/-- The material loop (lines 51-60). -/
def importMaterials (ms : List MaterialRecd) (s : Store) : Store :=
  ms.foldl (fun s m => { s with materials := mupsert mergeMaterial s.materials m.name m }) s

/-- The weapon loop (lines 72-83): upsert each weapon and register it in
weapon_map under its lower-cased name. -/
def importWeapons (ws : List WeaponRecd) (s : Store) (wm : String → Option String) :
    Store × (String → Option String) :=
  ws.foldl
    (fun p w =>
      ({ p.1 with weapons := mupsert mergeWeapon p.1.weapons w.name (.full w) },
       fun k => if k = pyLower w.name then some w.name else p.2 k))
    (s, wm)

/-- The artifact-set loop (lines 93-102). -/
def importArtifacts (arts : List ArtifactRecd) (s : Store) (am : String → Option String) :
    Store × (String → Option String) :=
  arts.foldl
    (fun p a =>
      ({ p.1 with artifacts := mupsert mergeArtifact p.1.artifacts a.name (a.two_piece_bonus, a.four_piece_bonus) },
       fun k => if k = pyLower a.name then some a.name else p.2 k))
    (s, am)

/-- The talent loop for one character (lines 114-122). -/
def doTalents (cname : String) (ts : List TalentRec) (s : Store) : Store :=
  ts.foldl (fun s t => { s with talents := mupsert mergeTalent s.talents (cname, t.name) t }) s

/-- The weapon-recommendation loop for one character (lines 124-141):
a hit in weapon_map links to the canonical weapon; a miss creates the
placeholder, registers it under the lower-cased recommended name, and
links to it. -/
def doWeaponRecs (c : CharPayload) (recs : List RecRec)
    (p : (String → Option String) × Store) : (String → Option String) × Store :=
  recs.foldl
    (fun p r =>
      match p.1 (pyLower r.name) with
      | some wname =>
          (p.1, { p.2 with weaponRecs := mupsert mergeRec p.2.weaponRecs (c.name, wname) r.ranking })
      | none =>
          let s1 := { p.2 with weapons := mupsert mergeWeapon p.2.weapons r.name (.placeholder c.weapon_type) }
          ((fun k => if k = pyLower r.name then some r.name else p.1 k),
           { s1 with weaponRecs := mupsert mergeRec s1.weaponRecs (c.name, r.name) r.ranking }))
    p

/-- The artifact-recommendation loop for one character (lines 143-156). -/
def doArtifactRecs (c : CharPayload) (recs : List RecRec)
    (p : (String → Option String) × Store) : (String → Option String) × Store :=
  recs.foldl
    (fun p r =>
      match p.1 (pyLower r.name) with
      | some aname =>
          (p.1, { p.2 with artifactRecs := mupsert mergeRec p.2.artifactRecs (c.name, aname) r.ranking })
      | none =>
          let s1 := { p.2 with artifacts := mupsert mergeArtifact p.2.artifacts r.name ("", "") }
          ((fun k => if k = pyLower r.name then some r.name else p.1 k),
           { s1 with artifactRecs := mupsert mergeRec s1.artifactRecs (c.name, r.name) r.ranking }))
    p

/-- The build-data loop over characters (lines 111-156). -/
def reconcile (cs : List CharPayload)
    (st : (String → Option String) × (String → Option String) × Store) :
    (String → Option String) × (String → Option String) × Store :=
  cs.foldl
    (fun st c =>
      let s1 := doTalents c.name c.talents st.2.2
      let (wm1, s2) := doWeaponRecs c c.weapon_recommendations (st.1, s1)
      let (am1, s3) := doArtifactRecs c c.artifact_recommendations (st.2.1, s2)
      (wm1, am1, s3))
    st

/-- Command.handle: the full run against already-fetched data d. -/
def handle (d : ImportData) (s : Store) : Store :=
  let s1 := importCharacters d.characters s
  let s2 := importMaterials d.materials s1
  let (s3, wm) := importWeapons d.weapons s2 (fun _ => none)
  let (s4, am) := importArtifacts d.artifacts s3 (fun _ => none)
  (reconcile d.characters (wm, am, s4)).2.2

/-!
Write-list view of the run.  Each update_or_create call of handle is a
keyed write; the writes of a run are a pure function of the fetched
data because no branch of handle reads the store.  The definitions
below compute those write lists; the theorems establish that handle
equals applying them in order.
-/

/-- Writes merged over an initial value, one per list element. -/
def pfold {α β : Type} (merge : Option β → α → β) (x : Option β) (ps : List α) : Option β :=
  ps.foldl (fun x w => some (merge x w)) x

/-- The writes of a list that target a given key, in order. -/
def valsAt {κ α : Type} [DecidableEq κ] (k : κ) (L : List (κ × α)) : List α :=
  (L.filter (fun p => decide (p.1 = k))).map (·.2)

/-- A merge is replayable when applying a write list a second time over
its own result changes nothing. -/
def Replayable {α β : Type} (merge : Option β → α → β) : Prop :=
  ∀ (x : Option β) (ps : List α), pfold merge (pfold merge x ps) ps = pfold merge x ps

/-- Description evolution along weapon writes: a full write installs
its description, a placeholder keeps the current one. -/
def dfoldW (d : String) (ps : List WeaponWrite) : String :=
  ps.foldl (fun d w => match w with | .full w' => w'.description | .placeholder _ => d) d

/-- The description installed by the last full write of a list, if any. -/
def lfW (a : Option String) (ps : List WeaponWrite) : Option String :=
  ps.foldl (fun a w => match w with | .full w' => some w'.description | .placeholder _ => a) a

/-- The character writes of the first loop. -/
def charWrites (cs : List CharPayload) : List (String × CharPayload) :=
  cs.map fun c => (c.name, c)

/-- The material writes. -/
def matWrites (ms : List MaterialRecd) : List (String × MaterialRecd) :=
  ms.map fun m => (m.name, m)

/-- The catalogue weapon writes. -/
def weapCatWrites (ws : List WeaponRecd) : List (String × WeaponWrite) :=
  ws.map fun w => (w.name, .full w)

/-- The catalogue artifact writes. -/
def artCatWrites (arts : List ArtifactRecd) : List (String × (String × String)) :=
  arts.map fun a => (a.name, (a.two_piece_bonus, a.four_piece_bonus))

/-- weapon_map after the catalogue loop (later duplicates win, as with
repeated dict assignment). -/
def wmapOf (ws : List WeaponRecd) (wm : String → Option String) : String → Option String :=
  ws.foldl (fun wm w => fun k => if k = pyLower w.name then some w.name else wm k) wm

/-- artifact_map after the catalogue loop. -/
def amapOf (arts : List ArtifactRecd) (am : String → Option String) : String → Option String :=
  arts.foldl (fun am a => fun k => if k = pyLower a.name then some a.name else am k) am

/-- The talent writes of one character. -/
def talWrites (cname : String) (ts : List TalentRec) : List ((String × String) × TalentRec) :=
  ts.map fun t => ((cname, t.name), t)

/-- Outcome of the weapon-recommendation loop of one character: final
weapon_map, placeholder weapon writes, link writes. -/
structure WrecOut where
  wm : String → Option String
  weapW : List (String × WeaponWrite)
  recW : List ((String × String) × Int)

/-- Pure transcript of doWeaponRecs. -/
def wrecsPure (c : CharPayload) (wm : String → Option String) : List RecRec → WrecOut
  | [] => ⟨wm, [], []⟩
  | r :: rest =>
      match wm (pyLower r.name) with
      | some wname =>
          let o := wrecsPure c wm rest
          ⟨o.wm, o.weapW, ((c.name, wname), r.ranking) :: o.recW⟩
      | none =>
          let wm1 : String → Option String :=
            fun k => if k = pyLower r.name then some r.name else wm k
          let o := wrecsPure c wm1 rest
          ⟨o.wm, (r.name, WeaponWrite.placeholder c.weapon_type) :: o.weapW,
           ((c.name, r.name), r.ranking) :: o.recW⟩

/-- Outcome of the artifact-recommendation loop of one character. -/
structure ArecOut where
  am : String → Option String
  artW : List (String × (String × String))
  recW : List ((String × String) × Int)

/-- Pure transcript of doArtifactRecs. -/
def arecsPure (c : CharPayload) (am : String → Option String) : List RecRec → ArecOut
  | [] => ⟨am, [], []⟩
  | r :: rest =>
      match am (pyLower r.name) with
      | some aname =>
          let o := arecsPure c am rest
          ⟨o.am, o.artW, ((c.name, aname), r.ranking) :: o.recW⟩
      | none =>
          let am1 : String → Option String :=
            fun k => if k = pyLower r.name then some r.name else am k
          let o := arecsPure c am1 rest
          ⟨o.am, (r.name, ("", "")) :: o.artW, ((c.name, r.name), r.ranking) :: o.recW⟩

/-- All writes of the build-data loop, plus the final maps. -/
structure ReconOut where
  talW : List ((String × String) × TalentRec)
  weapW : List (String × WeaponWrite)
  wrecW : List ((String × String) × Int)
  artW : List (String × (String × String))
  arecW : List ((String × String) × Int)
  wm : String → Option String
  am : String → Option String

/-- Pure transcript of reconcile. -/
def reconPure (cs : List CharPayload) (wm am : String → Option String) : ReconOut :=
  match cs with
  | [] => ⟨[], [], [], [], [], wm, am⟩
  | c :: rest =>
      let w := wrecsPure c wm c.weapon_recommendations
      let a := arecsPure c am c.artifact_recommendations
      let R := reconPure rest w.wm a.am
      ⟨talWrites c.name c.talents ++ R.talW, w.weapW ++ R.weapW, w.recW ++ R.wrecW,
       a.artW ++ R.artW, a.recW ++ R.arecW, R.wm, R.am⟩

/-- The reconciliation transcript of a full run. -/
def reconOf (d : ImportData) : ReconOut :=
  reconPure d.characters (wmapOf d.weapons (fun _ => none)) (amapOf d.artifacts (fun _ => none))

/-- The store a run leaves behind, written as one batch of write lists
per model. -/
def handleWrites (d : ImportData) (s : Store) : Store :=
  let R := reconOf d
  { characters := mapplyAll mergeChar (charWrites d.characters) s.characters
    materials := mapplyAll mergeMaterial (matWrites d.materials) s.materials
    weapons := mapplyAll mergeWeapon (weapCatWrites d.weapons ++ R.weapW) s.weapons
    artifacts := mapplyAll mergeArtifact (artCatWrites d.artifacts ++ R.artW) s.artifacts
    talents := mapplyAll mergeTalent R.talW s.talents
    weaponRecs := mapplyAll mergeRec R.wrecW s.weaponRecs
    artifactRecs := mapplyAll mergeRec R.arecW s.artifactRecs }

/-!
Spec-level helper definitions used to state the claims.
-/

/-- A recommendation sequence is 1-based and dense when the n-th entry
has ranking n. -/
def dense1Based (L : List ApiRecommendation) : Prop :=
  L.map (·.ranking) = List.range' 1 L.length

instance (L : List ApiRecommendation) : Decidable (dense1Based L) := by
  unfold dense1Based; infer_instance

/-- The last 0-based position in a raw priority list whose entry is the
string s up to case (non-string entries occupy positions but never
match), scanning left to right from index i. -/
def lastCIpos (s : String) : Nat → Option Nat → List Json → Option Nat
  | _, acc, [] => acc
  | i, acc, x :: rest =>
      match x with
      | Json.str t =>
          if pyLower t = pyLower s then lastCIpos s (i + 1) (some i) rest
          else lastCIpos s (i + 1) acc rest
      | _ => lastCIpos s (i + 1) acc rest

/-- An empty store (no rows in any model). -/
def emptyStore : Store :=
  ⟨fun _ => none, fun _ => none, fun _ => none, fun _ => none,
   fun _ => none, fun _ => none, fun _ => none⟩

/-- A bow character recommending an unrecognized weapon and artifact set. -/
def amberPayload : CharPayload :=
  ⟨"Amber", "pyro", "bow", 4, "", [], [⟨"Foobar Blade", 1⟩], [⟨"Mystic Set", 1⟩]⟩

/-- A second character recommending the same unrecognized names. -/
def lisaPayload : CharPayload :=
  ⟨"Lisa", "electro", "catalyst", 4, "", [], [⟨"Foobar Blade", 2⟩], [⟨"Mystic Set", 2⟩]⟩

/-- A run over the two characters with empty catalogues. -/
def twoCharData : ImportData := ⟨[amberPayload, lisaPayload], [], [], []⟩

/-!
Theorems.  First the write-list algebra used by the idempotence proof.
-/

theorem pfold_nil {α β : Type} (merge : Option β → α → β) (x : Option β) :
    pfold merge x [] = x := rfl

theorem pfold_cons {α β : Type} (merge : Option β → α → β) (x : Option β) (w : α) (ps : List α) :
    pfold merge x (w :: ps) = pfold merge (some (merge x w)) ps := rfl

theorem pfold_concat {α β : Type} (merge : Option β → α → β) (x : Option β) (ps : List α) (w : α) :
    pfold merge x (ps ++ [w]) = some (merge (pfold merge x ps) w) := by
  simp [pfold, List.foldl_append]

theorem mapplyAll_nil {κ α β : Type} [DecidableEq κ] (merge : Option β → α → β) (m : κ → Option β) :
    mapplyAll merge [] m = m := rfl

theorem mapplyAll_cons {κ α β : Type} [DecidableEq κ] (merge : Option β → α → β)
    (p : κ × α) (L : List (κ × α)) (m : κ → Option β) :
    mapplyAll merge (p :: L) m = mapplyAll merge L (mupsert merge m p.1 p.2) := rfl

theorem mapplyAll_append {κ α β : Type} [DecidableEq κ] (merge : Option β → α → β)
    (L1 L2 : List (κ × α)) (m : κ → Option β) :
    mapplyAll merge (L1 ++ L2) m = mapplyAll merge L2 (mapplyAll merge L1 m) := by
  simp [mapplyAll, List.foldl_append]

theorem valsAt_cons {κ α : Type} [DecidableEq κ] (k : κ) (p : κ × α) (L : List (κ × α)) :
    valsAt k (p :: L) = if p.1 = k then p.2 :: valsAt k L else valsAt k L := by
  by_cases h : p.1 = k <;> simp [valsAt, List.filter, h]

theorem mapplyAll_eq_pfold {κ α β : Type} [DecidableEq κ] (merge : Option β → α → β) :
    ∀ (L : List (κ × α)) (m : κ → Option β) (q : κ),
      mapplyAll merge L m q = pfold merge (m q) (valsAt q L) := by
  intro L
  induction L with
  | nil => intro m q; rfl
  | cons p L ih =>
      intro m q
      rw [mapplyAll_cons, ih, valsAt_cons]
      by_cases h : p.1 = q
      · subst h
        simp [mupsert, pfold_cons]
      · simp [mupsert, h]
        rw [if_neg (fun hq => h hq.symm)]

theorem mapplyAll_replay {κ α β : Type} [DecidableEq κ] (merge : Option β → α → β)
    (hR : Replayable merge) (L : List (κ × α)) (m : κ → Option β) :
    mapplyAll merge L (mapplyAll merge L m) = mapplyAll merge L m := by
  funext q
  rw [mapplyAll_eq_pfold, mapplyAll_eq_pfold]
  exact hR _ _

theorem valsAt_of_notin {κ α : Type} [DecidableEq κ] (k : κ) (L : List (κ × α))
    (h : ∀ p ∈ L, p.1 ≠ k) : valsAt k L = [] := by
  induction L with
  | nil => rfl
  | cons p L ih =>
      rw [valsAt_cons, if_neg (h p (List.mem_cons_self p L))]
      exact ih fun q hq => h q (List.mem_cons_of_mem p hq)

theorem mapplyAll_notin {κ α β : Type} [DecidableEq κ] (merge : Option β → α → β)
    (L : List (κ × α)) (m : κ → Option β) (k : κ) (h : ∀ p ∈ L, p.1 ≠ k) :
    mapplyAll merge L m k = m k := by
  rw [mapplyAll_eq_pfold, valsAt_of_notin k L h, pfold_nil]

/-- A merge whose result depends on the old row only through a field
projection it also preserves is replayable. -/
theorem replay_of_pres {α β γ : Type} (merge : Option β → α → β) (H : Option β → γ)
    (hmono : ∀ x y w, H x = H y → merge x w = merge y w)
    (hpres : ∀ x w, H (some (merge x w)) = H x) : Replayable merge := by
  have hH : ∀ (ps : List α) (x : Option β), H (pfold merge x ps) = H x := by
    intro ps
    induction ps with
    | nil => intro x; rfl
    | cons w rest ih =>
        intro x
        rw [pfold_cons]
        exact (ih (some (merge x w))).trans (hpres x w)
  intro x ps
  cases ps with
  | nil => rfl
  | cons w rest =>
      rw [pfold_cons, hmono _ x w (hH (w :: rest) x), pfold_cons merge x w rest]

/-- A merge that ignores the old row entirely is replayable. -/
theorem replay_of_const {α β : Type} (merge : Option β → α → β)
    (h : ∀ x y w, merge x w = merge y w) : Replayable merge :=
  replay_of_pres merge (fun _ => ()) (fun x y w _ => h x y w) (fun _ _ => rfl)

theorem replayChar : Replayable mergeChar :=
  replay_of_pres mergeChar croleOf
    (by intro x y w h; simp [mergeChar, h]) (by intro x w; simp [mergeChar, croleOf])

theorem replayMaterial : Replayable mergeMaterial :=
  replay_of_const mergeMaterial (by intro x y w; rfl)

theorem replayArtifact : Replayable mergeArtifact :=
  replay_of_const mergeArtifact (by intro x y w; rfl)

theorem replayTalent : Replayable mergeTalent :=
  replay_of_const mergeTalent (by intro x y w; rfl)

theorem replayRec : Replayable mergeRec :=
  replay_of_pres mergeRec rnoteOf
    (by intro x y w h; simp [mergeRec, h]) (by intro x w; simp [mergeRec, rnoteOf])

theorem wdescOf_pfold : ∀ (ps : List WeaponWrite) (x : Option WeaponRow),
    wdescOf (pfold mergeWeapon x ps) = dfoldW (wdescOf x) ps := by
  intro ps
  induction ps with
  | nil => intro x; rfl
  | cons w rest ih =>
      intro x
      rw [pfold_cons, ih]
      cases w <;> simp [dfoldW, mergeWeapon, wdescOf, List.foldl]

theorem dfoldW_getD : ∀ (ps : List WeaponWrite) (a : Option String) (d : String),
    dfoldW (a.getD d) ps = (lfW a ps).getD d := by
  intro ps
  induction ps with
  | nil => intro a d; rfl
  | cons w rest ih =>
      intro a d
      cases w with
      | full w' =>
          have h1 : dfoldW (a.getD d) (.full w' :: rest) = dfoldW ((some w'.description).getD d) rest := by
            simp [dfoldW, List.foldl]
          rw [h1, ih]
          rfl
      | placeholder wt =>
          have h1 : dfoldW (a.getD d) (.placeholder wt :: rest) = dfoldW (a.getD d) rest := by
            simp [dfoldW, List.foldl]
          rw [h1, ih]
          rfl

theorem lfW_none : ∀ (ps : List WeaponWrite) (a : Option String),
    lfW a ps = match lfW none ps with | some t => some t | none => a := by
  intro ps
  induction ps with
  | nil => intro a; rfl
  | cons w rest ih =>
      intro a
      cases w with
      | full w' =>
          have h1 : ∀ b, lfW b (WeaponWrite.full w' :: rest) = lfW (some w'.description) rest := by
            intro b; simp [lfW, List.foldl]
          rw [h1, h1, ih (some w'.description)]
          cases lfW none rest <;> rfl
      | placeholder wt =>
          have h1 : ∀ b, lfW b (WeaponWrite.placeholder wt :: rest) = lfW b rest := by
            intro b; simp [lfW, List.foldl]
          rw [h1, h1]
          exact ih a

theorem dfoldW_replay (ps : List WeaponWrite) (d : String) :
    dfoldW (dfoldW d ps) ps = dfoldW d ps := by
  have h0 : dfoldW d ps = (lfW none ps).getD d := by
    have := dfoldW_getD ps none d
    simpa using this
  calc dfoldW (dfoldW d ps) ps
      = dfoldW ((lfW none ps).getD d) ps := by rw [h0]
    _ = (lfW (lfW none ps) ps).getD d := dfoldW_getD ps (lfW none ps) d
    _ = (lfW none ps).getD d := by
        rw [lfW_none ps (lfW none ps)]
        rcases hz : lfW none ps with _ | t <;> simp [hz]
    _ = dfoldW d ps := h0.symm

theorem replayWeapon : Replayable mergeWeapon := by
  intro x ps
  induction ps using List.reverseRecOn with
  | nil => rfl
  | append_singleton qs w _ =>
      rw [pfold_concat, pfold_concat]
      congr 1
      cases w with
      | full w' => rfl
      | placeholder wt =>
          have hmono : ∀ u v : Option WeaponRow, wdescOf u = wdescOf v →
              mergeWeapon u (WeaponWrite.placeholder wt) = mergeWeapon v (WeaponWrite.placeholder wt) := by
            intro u v h; simp [mergeWeapon, h]
          apply hmono
          have h1 : wdescOf (some (mergeWeapon (pfold mergeWeapon x qs)
              (WeaponWrite.placeholder wt))) = dfoldW (wdescOf x) qs := by
            rw [show wdescOf (some (mergeWeapon (pfold mergeWeapon x qs)
              (WeaponWrite.placeholder wt))) = wdescOf (pfold mergeWeapon x qs) from rfl]
            rw [wdescOf_pfold]
          rw [wdescOf_pfold, h1, dfoldW_replay, ← wdescOf_pfold]

/-!
Each phase of handle equals applying its write list; the write lists
depend only on the fetched data.
-/

theorem importCharacters_eq : ∀ (cs : List CharPayload) (s : Store),
    importCharacters cs s =
      { s with characters := mapplyAll mergeChar (charWrites cs) s.characters } := by
  intro cs
  induction cs with
  | nil => intro s; rfl
  | cons c cs ih =>
      intro s
      show importCharacters cs { s with characters := mupsert mergeChar s.characters c.name c } = _
      rw [ih]
      rfl

theorem importMaterials_eq : ∀ (ms : List MaterialRecd) (s : Store),
    importMaterials ms s =
      { s with materials := mapplyAll mergeMaterial (matWrites ms) s.materials } := by
  intro ms
  induction ms with
  | nil => intro s; rfl
  | cons m ms ih =>
      intro s
      show importMaterials ms { s with materials := mupsert mergeMaterial s.materials m.name m } = _
      rw [ih]
      rfl

theorem importWeapons_eq : ∀ (ws : List WeaponRecd) (s : Store) (wm : String → Option String),
    importWeapons ws s wm =
      ({ s with weapons := mapplyAll mergeWeapon (weapCatWrites ws) s.weapons }, wmapOf ws wm) := by
  intro ws
  induction ws with
  | nil => intro s wm; rfl
  | cons w ws ih =>
      intro s wm
      show importWeapons ws { s with weapons := mupsert mergeWeapon s.weapons w.name (.full w) }
        (fun k => if k = pyLower w.name then some w.name else wm k) = _
      rw [ih]
      rfl

theorem importArtifacts_eq : ∀ (arts : List ArtifactRecd) (s : Store) (am : String → Option String),
    importArtifacts arts s am =
      ({ s with artifacts := mapplyAll mergeArtifact (artCatWrites arts) s.artifacts },
        amapOf arts am) := by
  intro arts
  induction arts with
  | nil => intro s am; rfl
  | cons a arts ih =>
      intro s am
      show importArtifacts arts
        { s with artifacts := mupsert mergeArtifact s.artifacts a.name (a.two_piece_bonus, a.four_piece_bonus) }
        (fun k => if k = pyLower a.name then some a.name else am k) = _
      rw [ih]
      rfl

theorem doTalents_eq : ∀ (cname : String) (ts : List TalentRec) (s : Store),
    doTalents cname ts s =
      { s with talents := mapplyAll mergeTalent (talWrites cname ts) s.talents } := by
  intro cname ts
  induction ts with
  | nil => intro s; rfl
  | cons t ts ih =>
      intro s
      show doTalents cname ts { s with talents := mupsert mergeTalent s.talents (cname, t.name) t } = _
      rw [ih]
      rfl

theorem doWeaponRecs_eq : ∀ (c : CharPayload) (recs : List RecRec)
    (wm : String → Option String) (s : Store),
    doWeaponRecs c recs (wm, s) =
      ((wrecsPure c wm recs).wm,
       { s with weapons := mapplyAll mergeWeapon (wrecsPure c wm recs).weapW s.weapons,
                weaponRecs := mapplyAll mergeRec (wrecsPure c wm recs).recW s.weaponRecs }) := by
  intro c recs
  induction recs with
  | nil => intro wm s; rfl
  | cons r recs ih =>
      intro wm s
      cases h : wm (pyLower r.name) with
      | some wname =>
          show doWeaponRecs c recs
            (match wm (pyLower r.name) with
             | some wname =>
                (wm, { s with weaponRecs := mupsert mergeRec s.weaponRecs (c.name, wname) r.ranking })
             | none =>
                ((fun k => if k = pyLower r.name then some r.name else wm k),
                 { s with weapons := mupsert mergeWeapon s.weapons r.name (.placeholder c.weapon_type),
                          weaponRecs := mupsert mergeRec s.weaponRecs (c.name, r.name) r.ranking })) = _
          rw [h]
          rw [ih]
          simp only [wrecsPure, h]
          rfl
      | none =>
          show doWeaponRecs c recs
            (match wm (pyLower r.name) with
             | some wname =>
                (wm, { s with weaponRecs := mupsert mergeRec s.weaponRecs (c.name, wname) r.ranking })
             | none =>
                ((fun k => if k = pyLower r.name then some r.name else wm k),
                 { s with weapons := mupsert mergeWeapon s.weapons r.name (.placeholder c.weapon_type),
                          weaponRecs := mupsert mergeRec s.weaponRecs (c.name, r.name) r.ranking })) = _
          rw [h]
          rw [ih]
          simp only [wrecsPure, h]
          rfl

theorem doArtifactRecs_eq : ∀ (c : CharPayload) (recs : List RecRec)
    (am : String → Option String) (s : Store),
    doArtifactRecs c recs (am, s) =
      ((arecsPure c am recs).am,
       { s with artifacts := mapplyAll mergeArtifact (arecsPure c am recs).artW s.artifacts,
                artifactRecs := mapplyAll mergeRec (arecsPure c am recs).recW s.artifactRecs }) := by
  intro c recs
  induction recs with
  | nil => intro am s; rfl
  | cons r recs ih =>
      intro am s
      cases h : am (pyLower r.name) with
      | some aname =>
          show doArtifactRecs c recs
            (match am (pyLower r.name) with
             | some aname =>
                (am, { s with artifactRecs := mupsert mergeRec s.artifactRecs (c.name, aname) r.ranking })
             | none =>
                ((fun k => if k = pyLower r.name then some r.name else am k),
                 { s with artifacts := mupsert mergeArtifact s.artifacts r.name ("", ""),
                          artifactRecs := mupsert mergeRec s.artifactRecs (c.name, r.name) r.ranking })) = _
          rw [h]
          rw [ih]
          simp only [arecsPure, h]
          rfl
      | none =>
          show doArtifactRecs c recs
            (match am (pyLower r.name) with
             | some aname =>
                (am, { s with artifactRecs := mupsert mergeRec s.artifactRecs (c.name, aname) r.ranking })
             | none =>
                ((fun k => if k = pyLower r.name then some r.name else am k),
                 { s with artifacts := mupsert mergeArtifact s.artifacts r.name ("", ""),
                          artifactRecs := mupsert mergeRec s.artifactRecs (c.name, r.name) r.ranking })) = _
          rw [h]
          rw [ih]
          simp only [arecsPure, h]
          rfl

theorem reconcile_eq : ∀ (cs : List CharPayload) (wm am : String → Option String) (s : Store),
    reconcile cs (wm, am, s) =
      ((reconPure cs wm am).wm, (reconPure cs wm am).am,
       { s with talents := mapplyAll mergeTalent (reconPure cs wm am).talW s.talents,
                weapons := mapplyAll mergeWeapon (reconPure cs wm am).weapW s.weapons,
                weaponRecs := mapplyAll mergeRec (reconPure cs wm am).wrecW s.weaponRecs,
                artifacts := mapplyAll mergeArtifact (reconPure cs wm am).artW s.artifacts,
                artifactRecs := mapplyAll mergeRec (reconPure cs wm am).arecW s.artifactRecs }) := by
  intro cs
  induction cs with
  | nil => intro wm am s; rfl
  | cons c cs ih =>
      intro wm am s
      show reconcile cs
        (let s1 := doTalents c.name c.talents s
         let (wm1, s2) := doWeaponRecs c c.weapon_recommendations (wm, s1)
         let (am1, s3) := doArtifactRecs c c.artifact_recommendations (am, s2)
         (wm1, am1, s3)) = _
      rw [doTalents_eq]
      simp only [doWeaponRecs_eq, doArtifactRecs_eq]
      rw [ih]
      simp only [reconPure, mapplyAll_append]

/-- handle is exactly its write-list form. -/
theorem handle_eq (d : ImportData) (s : Store) : handle d s = handleWrites d s := by
  show (reconcile d.characters
    ((importWeapons d.weapons (importMaterials d.materials (importCharacters d.characters s)) (fun _ => none)).2,
     (importArtifacts d.artifacts
        (importWeapons d.weapons (importMaterials d.materials (importCharacters d.characters s)) (fun _ => none)).1
        (fun _ => none)).2,
     (importArtifacts d.artifacts
        (importWeapons d.weapons (importMaterials d.materials (importCharacters d.characters s)) (fun _ => none)).1
        (fun _ => none)).1)).2.2 = _
  rw [importCharacters_eq, importMaterials_eq, importWeapons_eq, importArtifacts_eq, reconcile_eq]
  simp only [handleWrites, reconOf, mapplyAll_append]

/-- C4 idempotence, one component at a time. -/
theorem handleWrites_idem (d : ImportData) (s : Store) :
    handleWrites d (handleWrites d s) = handleWrites d s := by
  show Store.mk _ _ _ _ _ _ _ = Store.mk _ _ _ _ _ _ _
  congr 1
  · exact mapplyAll_replay mergeChar replayChar _ _
  · exact mapplyAll_replay mergeMaterial replayMaterial _ _
  · exact mapplyAll_replay mergeWeapon replayWeapon _ _
  · exact mapplyAll_replay mergeArtifact replayArtifact _ _
  · exact mapplyAll_replay mergeTalent replayTalent _ _
  · exact mapplyAll_replay mergeRec replayRec _ _
  · exact mapplyAll_replay mergeRec replayRec _ _

/-!
Claim theorems.
-/

/-- C4: running the full ingestion pipeline (Command.handle) a second
time against identical upstream data creates zero additional entities
and leaves every entity with the same final field values: the store
after the second run equals the store after the first, for any fetched
data and any starting store. -/
theorem c4ImportIdempotent (d : ImportData) (s : Store) :
    handle d (handle d s) = handle d s := by
  rw [handle_eq]
  rw [handle_eq]
  exact handleWrites_idem d s

/-- C1 counterexample: a non-numeric rarity string makes the character
rarity parse raise (int("oops") has no handler in fetch_characters), and
a negative material rarity is kept as -3 instead of falling back to the
default 1 — the claim promised the type-specific default and no raise. -/
theorem c1Counterexample :
    charRarity (Json.obj [("rarity", Json.str "oops")]) = none ∧
    matRarity (Json.obj [("rarity", Json.num (-3))]) = -3 := ⟨rfl, rfl⟩

/-- C1 amended: a missing rarity field yields the type-specific default
(5 for characters, 4 for weapons, 1 for materials); weapons also default
on a present falsy value; materials never raise, also defaulting to 1 on
a present falsy or unparseable value.  (Characters and weapons raise on
a non-numeric string, and parseable negative values are kept, per the
counterexample.) -/
theorem c1DefaultRarity :
    (∀ detail : Json, detail.get? "rarity" = none → charRarity detail = some 5) ∧
    (∀ item : Json, item.get? "rarity" = none → weaponRarity item = some 4) ∧
    (∀ (item v : Json), item.get? "rarity" = some v → v.truthy = false → weaponRarity item = some 4) ∧
    (∀ item : Json, item.get? "rarity" = none → matRarity item = 1) ∧
    (∀ (item v : Json), item.get? "rarity" = some v → v.truthy = false → matRarity item = 1) ∧
    (∀ (item v : Json), item.get? "rarity" = some v → v.toIntPy = none → matRarity item = 1) := by
  refine ⟨?_, ?_, ?_, ?_, ?_, ?_⟩
  · intro detail h; simp [charRarity, h]
  · intro item h; simp [weaponRarity, h]
  · intro item v h hv; simp [weaponRarity, h, hv]
  · intro item h; simp [matRarity, h]
  · intro item v h hv; simp [matRarity, h, hv]
  · intro item v h hv
    simp only [matRarity, h]
    cases ht : v.truthy <;> simp [hv]

/-- C1 witness: the amended theorem applied at concrete inputs. -/
theorem c1DefaultRarityWitness :
    charRarity (Json.obj []) = some 5 ∧
    weaponRarity (Json.obj []) = some 4 ∧
    weaponRarity (Json.obj [("rarity", Json.null)]) = some 4 ∧
    matRarity (Json.obj []) = 1 ∧
    matRarity (Json.obj [("rarity", Json.num 0)]) = 1 ∧
    matRarity (Json.obj [("rarity", Json.str "x")]) = 1 :=
  ⟨c1DefaultRarity.1 _ rfl,
   c1DefaultRarity.2.1 _ rfl,
   c1DefaultRarity.2.2.1 _ _ rfl rfl,
   c1DefaultRarity.2.2.2.1 _ rfl,
   c1DefaultRarity.2.2.2.2.1 _ _ rfl rfl,
   c1DefaultRarity.2.2.2.2.2 _ _ rfl rfl⟩

/-- C3 counterexample: a falsy entry is skipped but keeps its index, so
the list ["", "X"] yields a single recommendation with ranking 2 — the
returned sequence is not 1-based dense as the claim requires (its first
and only element would need ranking 1). -/
theorem c3Counterexample :
    normRecs (Json.arr [Json.str "", Json.str "X"]) = [⟨"X", 2⟩] ∧
    ¬ dense1Based (normRecs (Json.arr [Json.str "", Json.str "X"])) :=
  ⟨rfl, by decide⟩

/-- C3 amended: rankings are 1 + the position in the source enumeration,
so the returned sequence is 1-based and dense whenever no source entry
is skipped: for a list input in which every entry resolves to a truthy
name, for a dict input in which every key resolves to a non-empty name,
and always for a single-string input. -/
theorem c3DenseWhenNoSkip :
    (∀ items : List Json, (∀ item ∈ items, (listRecName item).truthy = true) →
      dense1Based (normRecs (Json.arr items))) ∧
    (∀ fields : List (String × Json),
      (∀ kv ∈ fields, dictRecName (Json.obj fields) kv.1 ≠ "") →
      dense1Based (normRecs (Json.obj fields))) ∧
    (∀ s : String, dense1Based (normRecs (Json.str s))) := by
  have hlist : ∀ (items : List Json) (i : Nat),
      (∀ item ∈ items, (listRecName item).truthy = true) →
      (recsFromList i items).map (·.ranking) = List.range' (i + 1) items.length := by
    intro items
    induction items with
    | nil => intro i _; rfl
    | cons item rest ih =>
        intro i h
        have hhd := h item (List.mem_cons_self item rest)
        have htl := fun x hx => h x (List.mem_cons_of_mem item hx)
        simp [recsFromList, hhd, ih (i + 1) htl, List.range']
  have hdict : ∀ (fields : List (String × Json)) (raw : Json) (i : Nat),
      (∀ kv ∈ fields, dictRecName raw kv.1 ≠ "") →
      (recsFromDict raw i fields).map (·.ranking) = List.range' (i + 1) fields.length := by
    intro fields raw
    induction fields with
    | nil => intro i _; rfl
    | cons kv rest ih =>
        intro i h
        have hhd := h kv (List.mem_cons_self kv rest)
        have htl := fun x hx => h x (List.mem_cons_of_mem kv hx)
        obtain ⟨k, v⟩ := kv
        simp [recsFromDict, hhd, ih (i + 1) htl, List.range']
  refine ⟨?_, ?_, ?_⟩
  · intro items h
    have h0 := hlist items 0 h
    have hlen : (recsFromList 0 items).length = items.length := by
      have := congrArg List.length h0
      simpa using this
    show dense1Based (recsFromList 0 items)
    unfold dense1Based
    rw [hlen, h0]
  · intro fields h
    have h0 := hdict fields (Json.obj fields) 0 h
    have hlen : (recsFromDict (Json.obj fields) 0 fields).length = fields.length := by
      have := congrArg List.length h0
      simpa using this
    show dense1Based (recsFromDict (Json.obj fields) 0 fields)
    unfold dense1Based
    rw [hlen, h0]
  · intro s
    show dense1Based [⟨s, 1⟩]
    unfold dense1Based
    rfl

/-- C3 witness: the amended theorem applied at concrete inputs of all
three shapes. -/
theorem c3DenseWhenNoSkipWitness :
    dense1Based (normRecs (Json.arr [Json.str "A", Json.str "B"])) ∧
    dense1Based (normRecs (Json.obj [("X", Json.null), ("Y", Json.null)])) ∧
    dense1Based (normRecs (Json.str "Solo")) :=
  ⟨c3DenseWhenNoSkip.1 _ (by decide),
   c3DenseWhenNoSkip.2.1 _ (by decide),
   c3DenseWhenNoSkip.2.2 "Solo"⟩

/-- C8: the character slug "amber" with detail
vision "Pyro", weapon "Bow", rarity "4" produces the record with name
"Amber" (derived from the slug), element "pyro", weapon_type "bow" and
rarity 4 (and no talents or recommendations). -/
theorem c8AmberEndToEnd :
    buildCharacter "amber"
      (Json.obj [("vision", Json.str "Pyro"), ("weapon", Json.str "Bow"),
                 ("rarity", Json.str "4")]) =
    .ok ⟨Json.str "Amber", "pyro", "bow", 4, Json.str "", [], [], []⟩ := rfl

/-- C6: the extract_sources fallback chain is strictly ordered: a boss
keyword in the path returns the mapped boss name before the region and
candidate fallbacks are consulted, and a known region in the path's
first segment returns the capitalized region before the candidate
fields are consulted. -/
theorem c6FallbackPrecedence :
    (∀ (item : Json) (p boss : String),
      item.getD "_path" (Json.str "") = Json.str p → bossLookup p = some boss →
      extractSources item = .ok boss) ∧
    (∀ (item : Json) (p : String),
      item.getD "_path" (Json.str "") = Json.str p → bossLookup p = none →
      regionSet.contains (firstSeg p) = true →
      extractSources item = .ok (pyCapitalize (firstSeg p))) := by
  constructor
  · intro item p boss hpath hboss
    have hp : p ≠ "" := by
      intro h
      subst h
      rw [show bossLookup "" = none from rfl] at hboss
      exact Option.noConfusion hboss
    simp only [extractSources]
    rw [hpath]
    simp [Json.truthy, hp, hboss]
  · intro item p hpath hboss hreg
    have hp : p ≠ "" := by
      intro h
      subst h
      rw [show regionSet.contains (firstSeg "") = false from rfl] at hreg
      exact Bool.noConfusion hreg
    have hreg' : firstSeg p ∈ regionSet := by simpa using hreg
    simp only [extractSources]
    rw [hpath]
    simp [Json.truthy, hp, hboss, hreg']

/-- C6 witness: a path containing "dvalin" under region "mondstadt"
yields "Stormterror" and not "Mondstadt"; without the keyword the same
region path yields "Mondstadt" even though a source field is present. -/
theorem c6FallbackPrecedenceWitness :
    extractSources (Json.obj [("_path", Json.str "mondstadt/dvalin"),
      ("source", Json.str "Ley Line")]) = .ok "Stormterror" ∧
    extractSources (Json.obj [("_path", Json.str "mondstadt/sunsettia"),
      ("source", Json.str "Ley Line")]) = .ok "Mondstadt" :=
  ⟨c6FallbackPrecedence.1 _ "mondstadt/dvalin" _ rfl rfl,
   c6FallbackPrecedence.2 _ "mondstadt/sunsettia" rfl rfl rfl⟩

/-- C7: when the path triggers neither the boss-keyword nor the region
lookup, candidate fragments ["A", "B", "A", "C"] produce the
deduplicated, order-preserving, comma-joined string "A, B, C". -/
theorem c7SourceDedup :
    ∀ (item : Json) (p : String),
      item.getD "_path" (Json.str "") = Json.str p →
      bossLookup p = none →
      regionSet.contains (firstSeg p) = false →
      candidateParts item = ["A", "B", "A", "C"] →
      extractSources item = .ok "A, B, C" := by
  intro item p hpath hboss hreg hparts
  have hjoin : joinCandidates item = "A, B, C" := by
    unfold joinCandidates
    rw [hparts]
    rfl
  by_cases hp : p = ""
  · subst hp
    simp only [extractSources]
    rw [hpath]
    simp [Json.truthy, hjoin]
  · have hreg' : firstSeg p ∉ regionSet := by simpa using hreg
    simp only [extractSources]
    rw [hpath]
    simp [Json.truthy, hp, hboss, hreg', hjoin]

/-- C7 witness: fragments A, B from the source field followed by A, C
from the obtain field join to "A, B, C". -/
theorem c7SourceDedupWitness :
    extractSources (Json.obj [("source", Json.arr [Json.str "A", Json.str "B"]),
      ("obtain", Json.arr [Json.str "A", Json.str "C"])]) = .ok "A, B, C" :=
  c7SourceDedup _ "" rfl rfl rfl rfl

theorem pyTitle_go_ne_nil (b : Bool) (c : Char) (cs : List Char) :
    pyTitle.go b (c :: cs) ≠ [] := by
  by_cases h : c.isAlpha <;> simp [pyTitle.go, h]

theorem pyTitle_ne_empty (s : String) (h : s ≠ "") : pyTitle s ≠ "" := by
  obtain ⟨data⟩ := s
  cases data with
  | nil => exact absurd rfl h
  | cons c cs =>
      intro hEq
      have hl : pyTitle.go false (c :: cs) = [] := by
        have := congrArg String.data hEq
        simpa [pyTitle] using this
      exact pyTitle_go_ne_nil false c cs hl

theorem replaceChar_ne_empty (s : String) (old new : Char) (h : s ≠ "") :
    replaceChar s old new ≠ "" := by
  obtain ⟨data⟩ := s
  cases data with
  | nil => exact absurd rfl h
  | cons c cs =>
      intro hEq
      have := congrArg String.data hEq
      simp [replaceChar] at this

/-- C2 counterexample: a weapon entry with no name, id or slug field is
not excluded: fetch_weapons emits a weapon whose name is the empty
string (the slug fallback titles the empty slug). -/
theorem c2Counterexample :
    fetchWeapons (Json.arr [Json.obj [("rarity", Json.num 5)]]) (fun _ => Json.null) =
      .ok [⟨Json.str "", "", 5, "", ""⟩] := rfl

theorem jorSlugName_truthy (slug : String) (v : Json) (h : slug ≠ "") :
    (jor v (Json.str (pyTitle (replaceChar slug '-' ' ')))).truthy = true := by
  cases hA : v.truthy
  · have hne : pyTitle (replaceChar slug '-' ' ') ≠ "" :=
      pyTitle_ne_empty _ (replaceChar_ne_empty _ _ _ h)
    simp only [jor, hA, if_false, Bool.false_eq_true]
    simpa [Json.truthy] using hne
  · simp [jor, hA]

/-- C2 amended: materials with no non-blank string name are dropped, so
every emitted material has a non-empty name; characters, weapons and
artifact sets fall back to the title-cased slug for their name, which is
non-empty (truthy) whenever the slug is non-empty — but an empty slug
with no name field yields a record with an empty name (per the
counterexample). -/
theorem c2NonEmptyNames :
    (∀ (category : String) (items : List Json) (ms : List ApiMaterialR),
      buildMaterials category items = .ok ms → ∀ m ∈ ms, m.name ≠ "") ∧
    (∀ (slug : String) (detail : Json) (c : ApiCharacterPayloadE),
      slug ≠ "" → buildCharacter slug detail = .ok c → c.name.truthy = true) ∧
    (∀ (slug : String) (item : Json) (w : ApiWeaponE),
      slug ≠ "" → buildWeapon slug item = .ok w → w.name.truthy = true) ∧
    (∀ (slug : String) (item : Json),
      slug ≠ "" → (buildSet slug item).name.truthy = true) := by
  refine ⟨?_, ?_, ?_, ?_⟩
  · intro category items
    induction items with
    | nil =>
        intro ms hms m hm
        simp only [buildMaterials] at hms
        cases hms
        simp at hm
    | cons item rest ih =>
        intro ms hms m hm
        cases hname : item.get? "name" with
        | none =>
            simp only [buildMaterials, hname] at hms
            exact ih ms hms m hm
        | some v =>
            cases v with
            | str s =>
                by_cases hs : pyStrip s = ""
                · simp only [buildMaterials, hname, if_pos hs] at hms
                  exact ih ms hms m hm
                · simp only [buildMaterials, hname, if_neg hs] at hms
                  cases hsrc : extractSources item with
                  | error e => rw [hsrc] at hms; cases hms
                  | ok src =>
                      rw [hsrc] at hms
                      cases hrest : buildMaterials category rest with
                      | error e => rw [hrest] at hms; cases hms
                      | ok ms' =>
                          rw [hrest] at hms
                          cases hms
                          rcases List.mem_cons.mp hm with h | h
                          · rw [h]; exact hs
                          · exact ih ms' hrest m h
            | null => simp only [buildMaterials, hname] at hms; exact ih ms hms m hm
            | bool b => simp only [buildMaterials, hname] at hms; exact ih ms hms m hm
            | num n => simp only [buildMaterials, hname] at hms; exact ih ms hms m hm
            | arr xs => simp only [buildMaterials, hname] at hms; exact ih ms hms m hm
            | obj fs => simp only [buildMaterials, hname] at hms; exact ih ms hms m hm
  · intro slug detail c hslug hok
    cases detail with
    | obj fs =>
        simp only [buildCharacter] at hok
        cases h1 : asLowerStr (jor (jget (Json.obj fs) "vision")
            (jor (jget (Json.obj fs) "element") (Json.str ""))) with
        | error e => rw [h1] at hok; cases hok
        | ok el =>
            rw [h1] at hok
            cases h2 : asLowerStr (jor (jget (Json.obj fs) "weapon")
                (jor (jget (Json.obj fs) "weapon_type") (Json.str ""))) with
            | error e => rw [h2] at hok; cases hok
            | ok wt =>
                rw [h2] at hok
                cases h3 : exceptOf (charRarity (Json.obj fs)) with
                | error e => rw [h3] at hok; cases hok
                | ok r =>
                    rw [h3] at hok
                    cases h4 : normTalents (Json.obj fs) with
                    | error e => rw [h4] at hok; cases hok
                    | ok ts =>
                        rw [h4] at hok
                        cases hok
                        exact jorSlugName_truthy slug _ hslug
    | null => simp only [buildCharacter] at hok; cases hok
    | bool b => simp only [buildCharacter] at hok; cases hok
    | num n => simp only [buildCharacter] at hok; cases hok
    | str s => simp only [buildCharacter] at hok; cases hok
    | arr xs => simp only [buildCharacter] at hok; cases hok
  · intro slug item w hslug hok
    cases h1 : asLowerStr (jor (jget item "type")
        (jor (jget item "weapon_type") (jor (jget item "weapon") (Json.str "")))) with
    | error e => rw [buildWeapon, h1] at hok; cases hok
    | ok wt =>
        cases h2 : exceptOf (weaponRarity item) with
        | error e => rw [buildWeapon, h1, h2] at hok; cases hok
        | ok r =>
            rw [buildWeapon, h1, h2] at hok
            cases hok
            exact jorSlugName_truthy slug _ hslug
  · intro slug item hslug
    exact jorSlugName_truthy slug _ hslug

/-- C2 witness: the amended theorem applied to a one-item material
category, a character, a weapon and an artifact set built from
non-empty slugs. -/
theorem c2NonEmptyNamesWitness :
    (∀ m ∈ [(⟨"Iron Chunk", "local-specialties", 1, ""⟩ : ApiMaterialR)], m.name ≠ "") ∧
    (Json.str "Amber").truthy = true ∧
    (Json.str "Foo Blade").truthy = true ∧
    (buildSet "gladiators-finale" (Json.obj [])).name.truthy = true :=
  ⟨c2NonEmptyNames.1 "local-specialties"
      [Json.obj [("name", Json.str "Iron Chunk"), ("rarity", Json.num 1)]] _ rfl,
   c2NonEmptyNames.2.1 "amber"
      (Json.obj [("vision", Json.str "Pyro"), ("weapon", Json.str "Bow"),
                 ("rarity", Json.str "4")])
      ⟨Json.str "Amber", "pyro", "bow", 4, Json.str "", [], [], []⟩ (by decide) rfl,
   c2NonEmptyNames.2.2.1 "foo-blade" (Json.obj []) ⟨Json.str "Foo Blade", "", 4, "", ""⟩
      (by decide) rfl,
   c2NonEmptyNames.2.2.2 "gladiators-finale" (Json.obj []) (by decide)⟩

theorem lastCIpos_acc (s : String) : ∀ (rest : List Json) (j : Nat) (a : Option Nat),
    lastCIpos s j a rest = match lastCIpos s j none rest with
      | some p => some p
      | none => a := by
  intro rest
  induction rest with
  | nil => intro j a; rfl
  | cons x rest ih =>
      intro j a
      cases x with
      | str t =>
          by_cases h : pyLower t = pyLower s
          · simp only [lastCIpos, if_pos h]
            rw [ih (j + 1) (some j)]
            rcases hz : lastCIpos s (j + 1) none rest with _ | p <;> simp [hz]
          · simp only [lastCIpos, if_neg h]
            exact ih (j + 1) a
      | null => simp only [lastCIpos]; exact ih (j + 1) a
      | bool b => simp only [lastCIpos]; exact ih (j + 1) a
      | num n => simp only [lastCIpos]; exact ih (j + 1) a
      | arr xs => simp only [lastCIpos]; exact ih (j + 1) a
      | obj fs => simp only [lastCIpos]; exact ih (j + 1) a

theorem prioInsertAll_eq (s : String) : ∀ (P : List Json) (i : Nat) (m : String → Option Nat),
    prioInsertAll i m P (pyLower s) =
      match lastCIpos s i none P with
      | some p => some (p + 1)
      | none => m (pyLower s) := by
  intro P
  induction P with
  | nil => intro i m; rfl
  | cons x P ih =>
      intro i m
      cases x with
      | str t =>
          by_cases h : pyLower t = pyLower s
          · simp only [prioInsertAll, lastCIpos, if_pos h]
            rw [ih (i + 1), lastCIpos_acc s P (i + 1) (some i)]
            rcases hz : lastCIpos s (i + 1) none P with _ | p
            · simp [hz, h.symm]
            · simp [hz]
          · simp only [prioInsertAll, lastCIpos, if_neg h]
            rw [ih (i + 1)]
            rcases hz : lastCIpos s (i + 1) none P with _ | p
            · have hns : pyLower s ≠ pyLower t := fun hq => h hq.symm
              simp [hz, hns]
            · simp [hz]
      | null => simp only [prioInsertAll, lastCIpos]; exact ih (i + 1) m
      | bool b => simp only [prioInsertAll, lastCIpos]; exact ih (i + 1) m
      | num n => simp only [prioInsertAll, lastCIpos]; exact ih (i + 1) m
      | arr xs => simp only [prioInsertAll, lastCIpos]; exact ih (i + 1) m
      | obj fs => simp only [prioInsertAll, lastCIpos]; exact ih (i + 1) m

theorem lookup_getD (P : List Json) (s : String) (fallback : Nat) :
    (prioInsertAll 0 (fun _ => none) P (pyLower s)).getD fallback =
      match lastCIpos s 0 none P with
      | some p => p + 1
      | none => fallback := by
  rw [prioInsertAll_eq]
  cases lastCIpos s 0 none P <;> rfl

/-- C9: a talent emitted by normalize_talents from the entry at
position idx gets as priority the 1-based position of the last
case-insensitive occurrence of its name in the explicit priority list
(talent_priority or priority), and idx + 1 when its name does not occur
there. -/
theorem c9TalentPriority :
    ∀ (detail : Json) (P : List Json) (idx : Nat) (x : Json) (t : ApiTalent),
      rawPriorityOf detail = Json.arr P →
      talentOfEntry (lookupOf detail) idx x = .ok (some t) →
      t.priority = match lastCIpos t.name 0 none P with
        | some p => p + 1
        | none => idx + 1 := by
  intro detail P idx x t hP hok
  have hlook : lookupOf detail = prioInsertAll 0 (fun _ => none) P := by
    simp [lookupOf, hP]
  rw [hlook] at hok
  cases x with
  | obj fs =>
      simp only [talentOfEntry] at hok
      by_cases ht : (jor (jget (Json.obj fs) "name") (jget (Json.obj fs) "title")).truthy
      · rw [if_pos ht] at hok
        cases hn : jor (jget (Json.obj fs) "name") (jget (Json.obj fs) "title") with
        | str s =>
            rw [hn] at hok
            cases hok
            show (prioInsertAll 0 (fun _ => none) P (pyLower s)).getD (idx + 1) = _
            exact lookup_getD P s (idx + 1)
        | null => rw [hn] at hok; cases hok
        | bool b => rw [hn] at hok; cases hok
        | num n => rw [hn] at hok; cases hok
        | arr xs => rw [hn] at hok; cases hok
        | obj gs => rw [hn] at hok; cases hok
      · rw [if_neg ht] at hok
        cases hok
  | null =>
      simp only [talentOfEntry] at hok
      by_cases hs : pyStr Json.null = "" <;> simp only [hs, if_pos, if_neg, ite_not] at hok
      all_goals cases hok
      all_goals exact lookup_getD _ _ _
  | bool b =>
      simp only [talentOfEntry] at hok
      by_cases hs : pyStr (Json.bool b) = "" <;> simp only [hs, if_pos, if_neg, ite_not] at hok
      all_goals cases hok
      all_goals exact lookup_getD _ _ _
  | num n =>
      simp only [talentOfEntry] at hok
      by_cases hs : pyStr (Json.num n) = "" <;> simp only [hs, if_pos, if_neg, ite_not] at hok
      all_goals cases hok
      all_goals exact lookup_getD _ _ _
  | str s =>
      simp only [talentOfEntry] at hok
      by_cases hs : pyStr (Json.str s) = "" <;> simp only [hs, if_pos, if_neg, ite_not] at hok
      all_goals cases hok
      all_goals exact lookup_getD _ _ _
  | arr xs =>
      simp only [talentOfEntry] at hok
      by_cases hs : pyStr (Json.arr xs) = "" <;> simp only [hs, if_pos, if_neg, ite_not] at hok
      all_goals cases hok
      all_goals exact lookup_getD _ _ _

/-- C9 witness: the name "B" matches the priority entry "b"
case-insensitively and gets priority 1 even at discovery position 5; the
name "C" is absent from the list and gets priority 6. -/
theorem c9TalentPriorityWitness :
    (⟨"B", "", 1⟩ : ApiTalent).priority =
      (match lastCIpos "B" 0 none [Json.str "b"] with
       | some p => p + 1
       | none => 6) ∧
    (⟨"C", "", 6⟩ : ApiTalent).priority =
      (match lastCIpos "C" 0 none [Json.str "b"] with
       | some p => p + 1
       | none => 6) :=
  ⟨c9TalentPriority (Json.obj [("talent_priority", Json.arr [Json.str "b"])])
      [Json.str "b"] 5 (Json.obj [("name", Json.str "B")]) ⟨"B", "", 1⟩ rfl rfl,
   c9TalentPriority (Json.obj [("talent_priority", Json.arr [Json.str "b"])])
      [Json.str "b"] 5 (Json.obj [("name", Json.str "C")]) ⟨"C", "", 6⟩ rfl rfl⟩

theorem wmapOf_eq_of_notin : ∀ (ws : List WeaponRecd) (wm : String → Option String) (q : String),
    (∀ w ∈ ws, pyLower w.name ≠ q) → wmapOf ws wm q = wm q := by
  intro ws
  induction ws with
  | nil => intro wm q _; rfl
  | cons w ws ih =>
      intro wm q h
      show wmapOf ws (fun k => if k = pyLower w.name then some w.name else wm k) q = wm q
      rw [ih _ q fun v hv => h v (List.mem_cons_of_mem w hv)]
      show (if q = pyLower w.name then some w.name else wm q) = wm q
      rw [if_neg fun hq => h w (List.mem_cons_self w ws) hq.symm]

theorem amapOf_eq_of_notin : ∀ (arts : List ArtifactRecd) (am : String → Option String) (q : String),
    (∀ a ∈ arts, pyLower a.name ≠ q) → amapOf arts am q = am q := by
  intro arts
  induction arts with
  | nil => intro am q _; rfl
  | cons a arts ih =>
      intro am q h
      show amapOf arts (fun k => if k = pyLower a.name then some a.name else am k) q = am q
      rw [ih _ q fun v hv => h v (List.mem_cons_of_mem a hv)]
      show (if q = pyLower a.name then some a.name else am q) = am q
      rw [if_neg fun hq => h a (List.mem_cons_self a arts) hq.symm]

/-- C5: when two different characters both recommend the same name and
it matches no canonical weapon (case-insensitively), the run creates
exactly one placeholder weapon under that name — carrying the first
recommending character's weapon-type, rarity 4 and empty source — both
characters' links reference it with their rankings, and no case-variant
weapon entry is touched; the analogous artifact placeholder gets empty
bonus texts and is likewise shared. -/
theorem c5PlaceholderReuse :
    ∀ (d : ImportData) (s : Store) (c1 c2 : CharPayload) (r1 r2 a1 a2 : RecRec),
      d.characters = [c1, c2] →
      c1.name ≠ c2.name →
      c1.weapon_recommendations = [r1] →
      c2.weapon_recommendations = [r2] →
      r2.name = r1.name →
      (∀ w ∈ d.weapons, pyLower w.name ≠ pyLower r1.name) →
      s.weapons r1.name = none →
      c1.artifact_recommendations = [a1] →
      c2.artifact_recommendations = [a2] →
      a2.name = a1.name →
      (∀ a ∈ d.artifacts, pyLower a.name ≠ pyLower a1.name) →
      (handle d s).weapons r1.name = some ⟨c1.weapon_type, 4, "", ""⟩ ∧
      ((handle d s).weaponRecs (c1.name, r1.name)).map RecRow.ranking = some r1.ranking ∧
      ((handle d s).weaponRecs (c2.name, r1.name)).map RecRow.ranking = some r2.ranking ∧
      (∀ k, pyLower k = pyLower r1.name → k ≠ r1.name →
        (handle d s).weapons k = s.weapons k) ∧
      (handle d s).artifacts a1.name = some ⟨"", ""⟩ ∧
      ((handle d s).artifactRecs (c1.name, a1.name)).map RecRow.ranking = some a1.ranking ∧
      ((handle d s).artifactRecs (c2.name, a1.name)).map RecRow.ranking = some a2.ranking := by
  intro d s c1 c2 r1 r2 a1 a2 hchars hc12 hwr1 hwr2 hr21 hws hsw har1 har2 ha21 has
  have hwm0 : wmapOf d.weapons (fun _ => none) (pyLower r1.name) = none :=
    wmapOf_eq_of_notin d.weapons _ _ hws
  have ham0 : amapOf d.artifacts (fun _ => none) (pyLower a1.name) = none :=
    amapOf_eq_of_notin d.artifacts _ _ has
  have hW1 : wrecsPure c1 (wmapOf d.weapons (fun _ => none)) c1.weapon_recommendations =
      ⟨(fun k => if k = pyLower r1.name then some r1.name
          else wmapOf d.weapons (fun _ => none) k),
       [(r1.name, WeaponWrite.placeholder c1.weapon_type)],
       [((c1.name, r1.name), r1.ranking)]⟩ := by
    rw [hwr1]
    simp only [wrecsPure, hwm0]
  have hW2 : wrecsPure c2
      (fun k => if k = pyLower r1.name then some r1.name
          else wmapOf d.weapons (fun _ => none) k) c2.weapon_recommendations =
      ⟨(fun k => if k = pyLower r1.name then some r1.name
          else wmapOf d.weapons (fun _ => none) k),
       [], [((c2.name, r1.name), r2.ranking)]⟩ := by
    rw [hwr2]
    have hlook : (fun k => if k = pyLower r1.name then some r1.name
        else wmapOf d.weapons (fun _ => none) k) (pyLower r2.name) = some r1.name := by
      rw [hr21]
      simp
    simp only [wrecsPure, hlook]
  have hA1 : arecsPure c1 (amapOf d.artifacts (fun _ => none)) c1.artifact_recommendations =
      ⟨(fun k => if k = pyLower a1.name then some a1.name
          else amapOf d.artifacts (fun _ => none) k),
       [(a1.name, ("", ""))],
       [((c1.name, a1.name), a1.ranking)]⟩ := by
    rw [har1]
    simp only [arecsPure, ham0]
  have hA2 : arecsPure c2
      (fun k => if k = pyLower a1.name then some a1.name
          else amapOf d.artifacts (fun _ => none) k) c2.artifact_recommendations =
      ⟨(fun k => if k = pyLower a1.name then some a1.name
          else amapOf d.artifacts (fun _ => none) k),
       [], [((c2.name, a1.name), a2.ranking)]⟩ := by
    rw [har2]
    have hlook : (fun k => if k = pyLower a1.name then some a1.name
        else amapOf d.artifacts (fun _ => none) k) (pyLower a2.name) = some a1.name := by
      rw [ha21]
      simp
    simp only [arecsPure, hlook]
  have hweapW : (reconOf d).weapW = [(r1.name, WeaponWrite.placeholder c1.weapon_type)] := by
    simp only [reconOf, hchars, reconPure, hW1, hW2, hA1, hA2]
    rfl
  have hwrecW : (reconOf d).wrecW =
      [((c1.name, r1.name), r1.ranking), ((c2.name, r1.name), r2.ranking)] := by
    simp only [reconOf, hchars, reconPure, hW1, hW2, hA1, hA2]
    rfl
  have hartW : (reconOf d).artW = [(a1.name, ("", ""))] := by
    simp only [reconOf, hchars, reconPure, hW1, hW2, hA1, hA2]
    rfl
  have harecW : (reconOf d).arecW =
      [((c1.name, a1.name), a1.ranking), ((c2.name, a1.name), a2.ranking)] := by
    simp only [reconOf, hchars, reconPure, hW1, hW2, hA1, hA2]
    rfl
  have hcatw : ∀ p ∈ weapCatWrites d.weapons, p.1 ≠ r1.name := by
    intro p hp
    simp only [weapCatWrites, List.mem_map] at hp
    obtain ⟨w, hw, rfl⟩ := hp
    intro hq
    exact hws w hw (congrArg pyLower hq)
  have hkey12 : ((c1.name, r1.name) : String × String) ≠ (c2.name, r1.name) := by
    intro h
    exact hc12 (congrArg Prod.fst h)
  have hakey12 : ((c1.name, a1.name) : String × String) ≠ (c2.name, a1.name) := by
    intro h
    exact hc12 (congrArg Prod.fst h)
  rw [handle_eq]
  refine ⟨?_, ?_, ?_, ?_, ?_, ?_, ?_⟩
  · show mapplyAll mergeWeapon (weapCatWrites d.weapons ++ (reconOf d).weapW) s.weapons r1.name = _
    rw [mapplyAll_append, hweapW]
    show mupsert mergeWeapon _ r1.name (WeaponWrite.placeholder c1.weapon_type) r1.name = _
    rw [mupsert, if_pos rfl, mapplyAll_notin mergeWeapon _ _ _ hcatw, hsw]
    rfl
  · show (mapplyAll mergeRec (reconOf d).wrecW s.weaponRecs ((c1.name, r1.name))).map _ = _
    rw [hwrecW]
    simp [mapplyAll, mupsert, hkey12, mergeRec]
  · show (mapplyAll mergeRec (reconOf d).wrecW s.weaponRecs ((c2.name, r1.name))).map _ = _
    rw [hwrecW]
    simp [mapplyAll, mupsert, mergeRec]
  · intro k hkl hkne
    show mapplyAll mergeWeapon (weapCatWrites d.weapons ++ (reconOf d).weapW) s.weapons k = _
    rw [mapplyAll_append, hweapW]
    have hcatk : ∀ p ∈ weapCatWrites d.weapons, p.1 ≠ k := by
      intro p hp
      simp only [weapCatWrites, List.mem_map] at hp
      obtain ⟨w, hw, rfl⟩ := hp
      intro hq
      exact hws w hw (hkl ▸ congrArg pyLower hq)
    have hphk : ∀ p ∈ [(r1.name, WeaponWrite.placeholder c1.weapon_type)], p.1 ≠ k := by
      intro p hp
      simp only [List.mem_singleton] at hp
      subst hp
      exact fun hq => hkne hq.symm
    rw [mapplyAll_notin mergeWeapon _ _ _ hphk, mapplyAll_notin mergeWeapon _ _ _ hcatk]
  · show mapplyAll mergeArtifact (artCatWrites d.artifacts ++ (reconOf d).artW) s.artifacts a1.name = _
    rw [mapplyAll_append, hartW]
    show mupsert mergeArtifact _ a1.name ("", "") a1.name = _
    rw [mupsert, if_pos rfl]
    rfl
  · show (mapplyAll mergeRec (reconOf d).arecW s.artifactRecs ((c1.name, a1.name))).map _ = _
    rw [harecW]
    simp [mapplyAll, mupsert, hakey12, mergeRec]
  · show (mapplyAll mergeRec (reconOf d).arecW s.artifactRecs ((c2.name, a1.name))).map _ = _
    rw [harecW]
    simp [mapplyAll, mupsert, mergeRec]

/-- C5 witness: the theorem applied to two concrete characters and an
empty store — one shared placeholder weapon with the first character's
weapon-type, both links present, and the shared artifact placeholder. -/
theorem c5PlaceholderReuseWitness :
    (handle twoCharData emptyStore).weapons "Foobar Blade" = some ⟨"bow", 4, "", ""⟩ ∧
    ((handle twoCharData emptyStore).weaponRecs ("Amber", "Foobar Blade")).map RecRow.ranking = some 1 ∧
    ((handle twoCharData emptyStore).weaponRecs ("Lisa", "Foobar Blade")).map RecRow.ranking = some 2 ∧
    (handle twoCharData emptyStore).artifacts "Mystic Set" = some ⟨"", ""⟩ := by
  obtain ⟨h1, h2, h3, _, h5, h6, h7⟩ :=
    c5PlaceholderReuse twoCharData emptyStore amberPayload lisaPayload
      ⟨"Foobar Blade", 1⟩ ⟨"Foobar Blade", 2⟩ ⟨"Mystic Set", 1⟩ ⟨"Mystic Set", 2⟩
      rfl (by decide) rfl rfl rfl (by intro w hw; cases hw) rfl rfl rfl rfl
      (by intro a ha; cases ha)
  exact ⟨h1, h2, h3, h5⟩

theorem mem_walkFields : ∀ (fs : List (String × Json)) (n : Nat) (p ls : List String) (it : Json),
    it ∈ walkFields n p ls fs → ∃ k v, (k, v) ∈ fs ∧ it ∈ walk v (p ++ [k]) ls := by
  intro fs
  induction fs with
  | nil =>
      intro n p ls it h
      simp [walkFields] at h
  | cons kv rest ih =>
      intro n p ls it h
      obtain ⟨k, v⟩ := kv
      simp only [walkFields] at h
      rcases List.mem_append.mp h with h | h
      · split at h
        · simp at h
        · exact ⟨k, v, List.mem_cons_self _ _, h⟩
      · obtain ⟨k', v', hmem, hwalk⟩ := ih n p ls it h
        exact ⟨k', v', List.mem_cons_of_mem _ hmem, hwalk⟩

theorem mem_walkList : ∀ (xs : List Json) (p ls : List String) (i : Nat) (it : Json),
    it ∈ walkList p ls i xs → ∃ v ∈ xs, ∃ p', it ∈ walk v p' ls := by
  intro xs
  induction xs with
  | nil =>
      intro p ls i it h
      simp [walkList] at h
  | cons v rest ih =>
      intro p ls i it h
      simp only [walkList] at h
      rcases List.mem_append.mp h with h | h
      · exact ⟨v, List.mem_cons_self _ _, p ++ [toString i], h⟩
      · obtain ⟨v', hmem, p', hwalk⟩ := ih p ls (i + 1) it h
        exact ⟨v', List.mem_cons_of_mem _ hmem, p', hwalk⟩

theorem walk_items_are_copies : ∀ (n : Nat) (j : Json), sizeOf j ≤ n →
    ∀ (path ls : List String) (it : Json), it ∈ walk j path ls →
    ∃ (fields : List (String × Json)) (p l : List String),
      Subnode (Json.obj fields) j ∧ it = mkClean fields p l := by
  intro n
  induction n with
  | zero =>
      intro j hj
      exfalso
      cases j <;> simp at hj
  | succ n ih =>
      intro j hj path ls it hit
      cases j with
      | obj fields =>
          simp only [walk] at hit
          rcases List.mem_append.mp hit with h | h
          · cases hli : looksLikeItem (Json.obj fields) with
            | false => rw [hli] at h; simp at h
            | true =>
                rw [hli] at h
                simp only [if_true, List.mem_singleton] at h
                exact ⟨fields, path, ls ++ getSourcesFromNode (Json.obj fields),
                       Subnode.refl _, h⟩
          · obtain ⟨k, v, hkv, hv⟩ := mem_walkFields fields fields.length path
              (ls ++ getSourcesFromNode (Json.obj fields)) it h

            have hsz : sizeOf v ≤ n := by
              have h1 := List.sizeOf_lt_of_mem hkv
              have e1 : sizeOf (k, v) = 1 + sizeOf k + sizeOf v := by simp
              have e2 : sizeOf (Json.obj fields) = 1 + sizeOf fields := by simp
              rw [e2] at hj
              rw [e1] at h1
              omega
            obtain ⟨fields', p', l', hsub, heq⟩ := ih v hsz (path ++ [k])
              (ls ++ getSourcesFromNode (Json.obj fields)) it hv
            exact ⟨fields', p', l', Subnode.objField hkv hsub, heq⟩
      | arr xs =>
          simp only [walk] at hit
          obtain ⟨v, hv, p', hit'⟩ := mem_walkList xs path ls 0 it hit
          have hsz : sizeOf v ≤ n := by
            have h1 := List.sizeOf_lt_of_mem hv
            have e2 : sizeOf (Json.arr xs) = 1 + sizeOf xs := by simp
            rw [e2] at hj
            omega
          obtain ⟨fields', p'', l', hsub, heq⟩ := ih v hsz p' ls it hit'
          exact ⟨fields', p'', l', Subnode.arrElem hv hsub, heq⟩
      | null => simp [walk] at hit
      | bool b => simp [walk] at hit
      | num m => simp [walk] at hit
      | str s => simp [walk] at hit

/-- C10: extract_items_from_category_payload emits only copies: every
emitted item equals mkClean applied to the fields of a node occurring in
the input tree — the original node's bindings with the synthetic _path
(and possibly _inherited_sources) keys set on the copy.  The embedding
models the Python dict(node) copy; no input node is rebuilt or altered. -/
theorem c10ItemsAreCopies :
    ∀ (payload it : Json), it ∈ extractItems payload →
      ∃ (fields : List (String × Json)) (p l : List String),
        Subnode (Json.obj fields) payload ∧ it = mkClean fields p l :=
  fun payload it h =>
    walk_items_are_copies (sizeOf payload) payload (Nat.le_refl _) [] [] it h

/-- C10 witness: the single item extracted from a one-node payload is
the copy of that node's fields with the _path key added. -/
theorem c10ItemsAreCopiesWitness :
    ∃ (fields : List (String × Json)) (p l : List String),
      Subnode (Json.obj fields) (Json.obj [("name", Json.str "Slime"), ("rarity", Json.num 1)]) ∧
      Json.obj [("name", Json.str "Slime"), ("rarity", Json.num 1), ("_path", Json.str "")] =
        mkClean fields p l :=
  c10ItemsAreCopies (Json.obj [("name", Json.str "Slime"), ("rarity", Json.num 1)])
    (Json.obj [("name", Json.str "Slime"), ("rarity", Json.num 1), ("_path", Json.str "")])
    (by rw [show extractItems (Json.obj [("name", Json.str "Slime"), ("rarity", Json.num 1)]) =
          [Json.obj [("name", Json.str "Slime"), ("rarity", Json.num 1), ("_path", Json.str "")]] from rfl]
        exact List.mem_singleton.mpr rfl)

end GenshinTools
